import Mathlib

/-!
Shallow embedding of the ListingMatcher service (src/main.py) and proofs about
the claims of its specification.

Modelling conventions:
- Python strings are `List Char` (abbreviated `Chars`).
- JSON values (results of `json.loads`, pydantic inputs) are the inductive `JVal`.
  Float literals are kept as exact scaled decimals `jfloat m e` (meaning m / 10^e):
  the service only ever round-trips the short decimal literals the model emits,
  where the IEEE-double value and the decimal value print identically.
- Fallible Python code is `Option`/`Except`; an `Except.error` models an exception
  escaping the translated region.
- Recursion over JSON text and values is fuel-based so definitions stay
  executable and kernel-reducible; the fuel mirrors the recursion limit Python
  itself imposes on `json.loads`/`json.dumps` and never binds on the inputs the
  theorems touch.
-/

abbrev Chars := List Char

def ks (s : String) : Chars := s.toList

/-- Whitespace of the regex class backslash-s and of str.strip (ASCII part). -/
def isPyWS (c : Char) : Bool :=
  c = ' ' || c = '\t' || c = '\n' || c = '\r' || c = '\x0b' || c = '\x0c'

/-- Whitespace accepted between JSON tokens by json.loads. -/
def isJWS (c : Char) : Bool :=
  c = ' ' || c = '\t' || c = '\n' || c = '\r'

def skipWs (s : Chars) : Chars := s.dropWhile isJWS

/-- Python str.strip with the ASCII whitespace set. -/
def pyStrip (s : Chars) : Chars :=
  ((s.dropWhile isPyWS).reverse.dropWhile isPyWS).reverse

/-- The decimal digit characters. -/
def digitChar : Nat → Char
  | 0 => '0' | 1 => '1' | 2 => '2' | 3 => '3' | 4 => '4'
  | 5 => '5' | 6 => '6' | 7 => '7' | 8 => '8' | _ => '9'

/-- Decimal digits of a natural number, most significant first (fuel-based so
it reduces in the kernel; the fuel n + 1 always suffices). -/
def natToCharsF : Nat → Nat → Chars
  | 0, _ => []
  | f + 1, n =>
    if n < 10 then [digitChar n]
    else natToCharsF f (n / 10) ++ [digitChar (n % 10)]

def natToChars (n : Nat) : Chars := natToCharsF (n + 1) n

/-- Value of a digit string (digits assumed; used by the number parser). -/
def digitsVal (s : Chars) : Nat :=
  s.foldl (fun a c => 10 * a + (c.toNat - 48)) 0

/-- JSON values as produced by json.loads. Numbers keep the int/float
distinction of Python: a literal with a fraction or exponent is a float,
represented exactly as a scaled decimal m / 10^e. -/
inductive JVal where
  | jnull : JVal
  | jbool : Bool → JVal
  | jint : Int → JVal
  | jfloat : (m : Int) → (e : Nat) → JVal
  | jstr : Chars → JVal
  | jarr : List JVal → JVal
  | jobj : List (Chars × JVal) → JVal

open JVal

/-- Python truthiness of a JSON-shaped value (None, False, 0, 0.0, empty
string/list/dict are falsy). -/
def truthy : JVal → Bool
  | jnull => false
  | jbool b => b
  | jint n => n != 0
  | jfloat m _ => m != 0
  | jstr s => !s.isEmpty
  | jarr l => !l.isEmpty
  | jobj o => !o.isEmpty

/-- Python `a or b` on JSON-shaped values. -/
def pyOrJ (a b : JVal) : JVal := if truthy a then a else b

/-- First binding of a key in an object (keys are unique after parsing, see
`insertUpd`). -/
def olookup : List (Chars × JVal) → Chars → Option JVal
  | [], _ => none
  | (k0, v) :: tl, k => if k0 = k then some v else olookup tl k

/-- Python dict.get with a default. -/
def getD (o : List (Chars × JVal)) (k : Chars) (d : JVal) : JVal :=
  match olookup o k with
  | some v => v
  | none => d

/-- dict insertion as performed by the JSON object parser: a repeated key
overwrites the value in place (last value wins, first position kept), matching
Python dict construction. -/
def insertUpd : List (Chars × JVal) → Chars → JVal → List (Chars × JVal)
  | [], k, v => [(k, v)]
  | (k0, v0) :: tl, k, v =>
    if k0 = k then (k0, v) :: tl else (k0, v0) :: insertUpd tl k v

def hexDigitChar : Nat → Char
  | 0 => '0' | 1 => '1' | 2 => '2' | 3 => '3' | 4 => '4'
  | 5 => '5' | 6 => '6' | 7 => '7' | 8 => '8' | 9 => '9'
  | 10 => 'a' | 11 => 'b' | 12 => 'c' | 13 => 'd' | 14 => 'e' | _ => 'f' 

def hexVal (c : Char) : Option Nat :=
  if '0' ≤ c ∧ c ≤ '9' then some (c.toNat - 48)
  else if 'a' ≤ c ∧ c ≤ 'f' then some (c.toNat - 87)
  else if 'A' ≤ c ∧ c ≤ 'F' then some (c.toNat - 55)
  else none

def hex4 (a b c d : Char) : Option Nat :=
  match hexVal a, hexVal b, hexVal c, hexVal d with
  | some x, some y, some z, some w => some (4096 * x + 256 * y + 16 * z + w)
  | _, _, _, _ => none

/-- json.dumps escaping of one character (ensure_ascii turned off for
characters above 0x7f; the service never inspects the non-ASCII escaping of its
own dumps, so this choice is immaterial to every theorem). -/
def escCharDump (c : Char) : Chars :=
  if c = '"' then ['\\', '"']
  else if c = '\\' then ['\\', '\\']
  else if c = '\n' then ['\\', 'n']
  else if c = '\r' then ['\\', 'r']
  else if c = '\t' then ['\\', 't']
  else if c.toNat = 8 then ['\\', 'b']
  else if c.toNat = 12 then ['\\', 'f']
  else if c.toNat < 32 then
    ['\\', 'u', '0', '0', hexDigitChar (c.toNat / 16), hexDigitChar (c.toNat % 16)]
  else [c]

def escapeStr (s : Chars) : Chars := (s.map escCharDump).flatten

/-- Decimal rendering of the float m / 10^e, as Python repr does for the short
decimals in scope: integer part, dot, fraction part zero-padded to e digits
(e = 0 renders as "m.0", matching repr of an integral float). -/
def floatChars (m : Int) (e : Nat) : Chars :=
  (if m < 0 then ['-'] else []) ++ natToChars (m.natAbs / 10 ^ e) ++ ['.'] ++
    (List.replicate (e - (natToChars (m.natAbs % 10 ^ e)).length) '0' ++
      natToChars (m.natAbs % 10 ^ e))

def intChars (n : Int) : Chars :=
  (if n < 0 then ['-'] else []) ++ natToChars n.natAbs

mutual
/-- json.dumps (compact separators; the spacing of the dumped text is never
inspected by the service). Fuel-based: Python itself raises RecursionError past
its recursion limit, and no claim involves values of such depth. -/
def jdumpF : Nat → JVal → Chars
  | 0, _ => []
  | _ + 1, jnull => ks "null"
  | _ + 1, jbool true => ks "true"
  | _ + 1, jbool false => ks "false"
  | _ + 1, jint n => intChars n
  | _ + 1, jfloat m e => floatChars m e
  | _ + 1, jstr s => '"' :: escapeStr s ++ ['"']
  | f + 1, jarr l => '[' :: jdumpElems f l ++ [']']
  | f + 1, jobj l => '{' :: jdumpMembers f l ++ ['}']

def jdumpElems : Nat → List JVal → Chars
  | 0, _ => []
  | _ + 1, [] => []
  | f + 1, [v] => jdumpF f v
  | f + 1, v :: rest => jdumpF f v ++ ',' :: jdumpElems f rest

def jdumpMembers : Nat → List (Chars × JVal) → Chars
  | 0, _ => []
  | _ + 1, [] => []
  | f + 1, [(k, v)] => '"' :: escapeStr k ++ '"' :: ':' :: jdumpF f v
  | f + 1, (k, v) :: rest =>
    '"' :: escapeStr k ++ '"' :: ':' :: jdumpF f v ++ ',' :: jdumpMembers f rest
end

def jdump (v : JVal) : Chars := jdumpF 1000 v

/-- Decoded form of an escape character (json.loads). -/
def escCharLoad (e : Char) : Option Char :=
  if e = '"' then some '"'
  else if e = '\\' then some '\\'
  else if e = '/' then some '/'
  else if e = 'b' then some (Char.ofNat 8)
  else if e = 'f' then some (Char.ofNat 12)
  else if e = 'n' then some '\n'
  else if e = 'r' then some '\r'
  else if e = 't' then some '\t'
  else none

def surrogatePairChar (hi lo : Nat) : Char :=
  Char.ofNat (65536 + (hi - 55296) * 1024 + (lo - 56320))

/-- Python strings may hold lone surrogates decoded from backslash-u escapes;
Lean chars are unicode scalar values, so a lone surrogate is modelled by the
replacement character. No claim involves such strings. -/
def loneSurrogateChar : Char := Char.ofNat 65533

/-- Lookahead classification of what follows a high surrogate escape. -/
inductive LowSurScan where
  | pair : Nat → LowSurScan
  | lone : LowSurScan
  | bad : LowSurScan

def scanLowSur : Chars → LowSurScan
  | '\\' :: 'u' :: a :: b :: c :: d :: _ =>
    match hex4 a b c d with
    | none => .bad
    | some m => if 56320 ≤ m ∧ m ≤ 57343 then .pair m else .lone
  | _ => .lone

/-- String body parser of json.loads, after the opening quote: returns the
decoded string and the rest after the closing quote. Unescaped control
characters are rejected (strict mode). In the surrogate-pair case the decoder
continues at the low escape (which alone decodes to one placeholder character)
and replaces that first decoded character with the combined one, which matches
consuming both escapes at once and keeps the recursion structural. -/
def parseStrRest : Chars → Option (Chars × Chars)
  | [] => none
  | '"' :: r => some ([], r)
  | '\\' :: 'u' :: a :: b :: c :: d :: r =>
    match hex4 a b c d with
    | none => none
    | some n =>
      if 55296 ≤ n ∧ n ≤ 56319 then
        match scanLowSur r with
        | .bad => none
        | .pair m => (parseStrRest r).map (fun p => (surrogatePairChar n m :: p.1.tail, p.2))
        | .lone => (parseStrRest r).map (fun p => (loneSurrogateChar :: p.1, p.2))
      else if 56320 ≤ n ∧ n ≤ 57343 then
        (parseStrRest r).map (fun p => (loneSurrogateChar :: p.1, p.2))
      else
        (parseStrRest r).map (fun p => (Char.ofNat n :: p.1, p.2))
  | '\\' :: e :: r =>
    match escCharLoad e with
    | some c => (parseStrRest r).map (fun p => (c :: p.1, p.2))
    | none => none
  | c :: r =>
    if c.toNat < 32 then none
    else (parseStrRest r).map (fun p => (c :: p.1, p.2))

/-- Exponent part of a JSON number ([eE][+-]?digits), if present. -/
def parseExpPart (s : Chars) : Option (Int × Chars) :=
  if s.head? = some 'e' ∨ s.head? = some 'E' then
    let r := s.tail
    let sp : Int × Chars :=
      if r.head? = some '+' then (1, r.tail)
      else if r.head? = some '-' then (-1, r.tail)
      else (1, r)
    let dsp := sp.2.span (fun c => c.isDigit)
    if dsp.1.isEmpty then none else some (sp.1 * (digitsVal dsp.1 : Int), dsp.2)
  else some (0, s)

/-- Optional leading minus of a JSON number. -/
def parseSign (s : Chars) : Bool × Chars :=
  if s.head? = some '-' then (true, s.tail) else (false, s)

/-- The fraction and exponent tail after the integer digits ds of a JSON
number; a token without fraction and exponent is an int, otherwise a float. -/
def parseNumTail (neg : Bool) (ds : Chars) (r1 : Chars) : Option (JVal × Chars) :=
  let applySign : Int → Int := fun n => if neg then -n else n
  if r1.head? = some '.' then
    let sp := r1.tail.span (fun c => c.isDigit)
    if sp.1.isEmpty then none
    else
      match parseExpPart sp.2 with
      | none => none
      | some (ex, r4) =>
        let m0 : Nat := digitsVal (ds ++ sp.1)
        let e0 : Int := (sp.1.length : Int)
        if e0 ≤ ex then
          some (jfloat (applySign (m0 * 10 ^ (ex - e0).toNat)) 0, r4)
        else
          some (jfloat (applySign m0) (e0 - ex).toNat, r4)
  else
    match parseExpPart r1 with
    | none => none
    | some (ex, r4) =>
      if r4.length = r1.length then
        some (jint (applySign (digitsVal ds)), r4)
      else
        if 0 ≤ ex then
          some (jfloat (applySign (digitsVal ds * 10 ^ ex.toNat)) 0, r4)
        else
          some (jfloat (applySign (digitsVal ds)) (-ex).toNat, r4)

/-- JSON number grammar of json.loads: -?(0|[1-9][0-9]*)(.digits)?([eE][+-]?digits)?.
NaN and Infinity extensions are not modelled (never produced by the service
inputs in scope). -/
def parseNum (s : Chars) : Option (JVal × Chars) :=
  let p := parseSign s
  let sp := p.2.span (fun c => c.isDigit)
  if sp.1.isEmpty then none
  else if sp.1.head? = some '0' ∧ sp.1.length > 1 then none
  else parseNumTail p.1 sp.1 sp.2

mutual
/-- Value parser of json.loads (fuel-based; callers pass fuel larger than any
recursion depth reachable on the input, mirroring the Python recursion limit).
Expects its input to start at a non-whitespace character. -/
def pVal : Nat → Chars → Option (JVal × Chars)
  | 0, _ => none
  | f + 1, s =>
    match s with
    | '{' :: r =>
      (match skipWs r with
       | '}' :: r2 => some (jobj [], r2)
       | r1 => (pMembers f [] r1).map (fun p => (jobj p.1, p.2)))
    | '[' :: r =>
      (match skipWs r with
       | ']' :: r2 => some (jarr [], r2)
       | r1 => (pElems f r1).map (fun p => (jarr p.1, p.2)))
    | 'n' :: 'u' :: 'l' :: 'l' :: r => some (jnull, r)
    | 't' :: 'r' :: 'u' :: 'e' :: r => some (jbool true, r)
    | 'f' :: 'a' :: 'l' :: 's' :: 'e' :: r => some (jbool false, r)
    | '"' :: r => (parseStrRest r).map (fun p => (jstr p.1, p.2))
    | _ => parseNum s

def pElems : Nat → Chars → Option (List JVal × Chars)
  | 0, _ => none
  | f + 1, s =>
    match pVal f s with
    | none => none
    | some (v, r) =>
      match skipWs r with
      | ',' :: r2 =>
        (match pElems f (skipWs r2) with
         | none => none
         | some (vs, r3) => some (v :: vs, r3))
      | ']' :: r2 => some ([v], r2)
      | _ => none

def pMembers : Nat → List (Chars × JVal) → Chars → Option (List (Chars × JVal) × Chars)
  | 0, _, _ => none
  | f + 1, acc, s =>
    match s with
    | '"' :: r =>
      (match parseStrRest r with
       | none => none
       | some (k, r1) =>
         match skipWs r1 with
         | ':' :: r2 =>
           (match pVal f (skipWs r2) with
            | none => none
            | some (v, r3) =>
              match skipWs r3 with
              | ',' :: r4 => pMembers f (insertUpd acc k v) (skipWs r4)
              | '}' :: r4 => some (insertUpd acc k v, r4)
              | _ => none)
         | _ => none)
    | _ => none
end

/-- json.loads: parse one value surrounded by optional whitespace; trailing
data is an error. The fuel is generous in the input length: it models the
recursion limit Python imposes and never binds on JSON text whose nesting the
service can actually encounter. -/
def jloads (s : Chars) : Option JVal :=
  match pVal (12 * s.length + 12) (skipWs s) with
  | some (v, r) => if skipWs r = [] then some v else none
  | none => none

/-! The regex search re.search(r-quote "properties"\s*:\s*(\[[\s\S]*?\]) ) of
run_listingmatcher: leftmost position where the literal, optional whitespace,
a colon, optional whitespace and an opening bracket match, the group extending
lazily to the first closing bracket. -/

def litProperties : Chars := ks "\"properties\""

def dropPfx : Chars → Chars → Option Chars
  | [], s => some s
  | _ :: _, [] => none
  | p :: ps, c :: cs => if c = p then dropPfx ps cs else none

/-- The characters up to and including the first closing bracket, if any
(the lazy part of the regex group). -/
def takeThroughRB : Chars → Option Chars
  | [] => none
  | ']' :: _ => some [']']
  | c :: r => (takeThroughRB r).map (c :: ·)

/-- Attempt the whole pattern at this position; returns the regex group. -/
def matchPropsAt (s : Chars) : Option Chars :=
  match dropPfx litProperties s with
  | none => none
  | some r =>
    match r.dropWhile isPyWS with
    | ':' :: r2 =>
      (match r2.dropWhile isPyWS with
       | '[' :: r3 => (takeThroughRB r3).map ('[' :: ·)
       | _ => none)
    | _ => none

/-- re.search: try every start position left to right. -/
def findPropsArray : Chars → Option Chars
  | [] => none
  | s@(_ :: tl) =>
    match matchPropsAt s with
    | some g => some g
    | none => findPropsArray tl

/-! ### The Listing model and the structured-payload extraction -/

/-- Listing (pydantic model): every field optional. Floats (baths) are scaled
decimals kept in the canonical form produced by `canonFloatAux`. -/
structure Listing where
  mls : Option Chars := none
  url : Option Chars := none
  address : Option Chars := none
  price_cad : Option Int := none
  beds : Option Int := none
  baths : Option (Int × Nat) := none
  type : Option Chars := none
  note : Option Chars := none
deriving DecidableEq, Repr

def recognizedKeys : List Chars :=
  [ks "mls", ks "url", ks "address", ks "price_cad", ks "beds", ks "baths",
   ks "type", ks "note"]

/-- Canonical form of a scaled decimal: at least one fraction digit, and no
trailing zero fraction digit beyond the first (2.50 becomes 2.5, 2 becomes
2.0). Equal Python floats then have equal representations. -/
def canonFloatAux : Nat → Int → Int × Nat
  | 0, m => (m * 10, 1)
  | 1, m => (m, 1)
  | e + 2, m => if m % 10 = 0 then canonFloatAux (e + 1) (m / 10) else (m, e + 2)

def canonFloat (p : Int × Nat) : Int × Nat := canonFloatAux p.2 p.1

/-- Validation of an optional string field (model of pydantic Optional[str]:
absent or null gives None, a string passes, anything else fails; numeric
coercions of some pydantic versions are not modelled -- no claim depends on
them). The outer Option is the validation outcome, the inner the field value. -/
def vStrField : Option JVal → Option (Option Chars)
  | none => some none
  | some jnull => some none
  | some (jstr s) => some (some s)
  | some _ => none

/-- Validation of an optional int field: ints pass, integral floats are
accepted, everything else fails. -/
def vIntField : Option JVal → Option (Option Int)
  | none => some none
  | some jnull => some none
  | some (jint n) => some (some n)
  | some (jfloat m e) => if m % (10 ^ e : Int) = 0 then some (some (m / 10 ^ e)) else none
  | some _ => none

/-- Validation of an optional float field: floats and ints pass (canonicalised),
everything else fails. -/
def vFloatField : Option JVal → Option (Option (Int × Nat))
  | none => some none
  | some jnull => some none
  | some (jint n) => some (some (n * 10, 1))
  | some (jfloat m e) => some (some (canonFloat (m, e)))
  | some _ => none

/-- Listing(**o) for a mapping o: validate each recognized field, ignore
extra keys (pydantic default), missing fields default to None. A single
failing field validation fails the whole construction. -/
def buildListing (o : List (Chars × JVal)) : Option Listing :=
  match vStrField (olookup o (ks "mls")) with
  | none => none
  | some mls =>
    match vStrField (olookup o (ks "url")) with
    | none => none
    | some url =>
      match vStrField (olookup o (ks "address")) with
      | none => none
      | some address =>
        match vIntField (olookup o (ks "price_cad")) with
        | none => none
        | some price_cad =>
          match vIntField (olookup o (ks "beds")) with
          | none => none
          | some beds =>
            match vFloatField (olookup o (ks "baths")) with
            | none => none
            | some baths =>
              match vStrField (olookup o (ks "type")) with
              | none => none
              | some type =>
                match vStrField (olookup o (ks "note")) with
                | none => none
                | some note =>
                  some ⟨mls, url, address, price_cad, beds, baths, type, note⟩

/-- First mapping attempt, Listing(**p): needs a mapping, then validation. -/
def listingFull : JVal → Option Listing
  | jobj o => buildListing o
  | _ => none

/-- Substring test (Python `in` on strings). -/
def hasInfixB (pat : Chars) : Chars → Bool
  | [] => pat.isEmpty
  | s@(_ :: tl) => pat.isPrefixOf s || hasInfixB pat tl

/-- Python `k in p` for a string p is a substring test. -/
def strHasKey (s : Chars) : Bool :=
  recognizedKeys.any (fun k => hasInfixB k s)

/-- Python `k in p` for a list p is an element equality test. -/
def arrHasKey (l : List JVal) : Bool :=
  recognizedKeys.any (fun k => l.any (fun v =>
    match v with
    | jstr s => s = k
    | _ => false))

/-- Fallback attempt of the element mapping, the dict comprehension
Listing(**(k : p.get(k) for recognized k in p)). Exceptions escaping it
(TypeError for non-iterable p, AttributeError when p has no .get, a pydantic
ValidationError on a recognized field) are errors: the source has no further
handler, so they abort the whole request. -/
def listingFallback : JVal → Except Chars Listing
  | jobj o =>
    (match buildListing (recognizedKeys.filterMap
        (fun k => (olookup o k).map (fun v => (k, v)))) with
     | some l => Except.ok l
     | none => Except.error (ks "ValidationError"))
  | jarr l =>
    if arrHasKey l then Except.error (ks "AttributeError: list has no attribute get")
    else Except.ok {}
  | jstr s =>
    if strHasKey s then Except.error (ks "AttributeError: str has no attribute get")
    else Except.ok {}
  | _ => Except.error (ks "TypeError: argument is not iterable")

/-- One element of the properties array: full-shape construction first, on
failure the recognized-field projection. -/
def mapElement (v : JVal) : Except Chars Listing :=
  match listingFull v with
  | some l => Except.ok l
  | none => listingFallback v

/-- Effectful map that mirrors the Python for-loop with append: stops at the
first uncaught exception. -/
def exMapM (f : α → Except Chars β) : List α → Except Chars (List β)
  | [] => Except.ok []
  | a :: as =>
    match f a with
    | Except.error e => Except.error e
    | Except.ok b =>
      match exMapM f as with
      | Except.error e => Except.error e
      | Except.ok bs => Except.ok (b :: bs)

/-- The parsed properties array of the final text: empty on a missing match or
a parse failure. -/
def extractProps (text : Chars) : List JVal :=
  match findPropsArray text with
  | none => []
  | some grp =>
    match jloads grp with
    | some (jarr l) => l
    | _ => []

/-- The listing mapping loop of run_listingmatcher: truncate to the limit,
then map every element. -/
def extractListings (text : Chars) (limit : Nat) : Except Chars (List Listing) :=
  exMapM mapElement ((extractProps text).take limit)

/-! ### Serialization of a listing set back to text (the spec side of the
idempotence claim: the extracted listing set written out as a
properties-named JSON array). -/

def optStrJ : Option Chars → JVal
  | none => jnull
  | some s => jstr s

def optIntJ : Option Int → JVal
  | none => jnull
  | some n => jint n

def optFloatJ : Option (Int × Nat) → JVal
  | none => jnull
  | some p => jfloat p.1 p.2

def listingToJson (l : Listing) : JVal :=
  jobj [(ks "mls", optStrJ l.mls), (ks "url", optStrJ l.url),
        (ks "address", optStrJ l.address), (ks "price_cad", optIntJ l.price_cad),
        (ks "beds", optIntJ l.beds), (ks "baths", optFloatJ l.baths),
        (ks "type", optStrJ l.type), (ks "note", optStrJ l.note)]

/-- The extracted listing set serialized back to text as a JSON array named
properties (dump fuel ample for the two nesting levels and the list length). -/
def serializeProps (L : List Listing) : Chars :=
  litProperties ++ ks ": " ++ jdumpF (L.length + 12) (jarr (L.map listingToJson))

/-! ### ToolExecutor: web search and page fetch -/

/-- One organic search result row as built by tool_web_search. -/
structure SearchItem where
  title : JVal
  url : JVal
  snippet : JVal

/-- The result dict of tool_web_search. -/
structure SearchResult where
  engine : Chars
  query : JVal
  results : List SearchItem
  error : Option Chars
  note : Option Chars

/-- Python list slicing l[:n] (a negative n counts from the end). -/
def pySliceTo (l : List α) (n : Int) : List α :=
  if 0 ≤ n then l.take n.toNat else l.take ((l.length : Int) + n).toNat

def mkSearchItem : JVal → Except Chars SearchItem
  | jobj o => Except.ok ⟨getD o (ks "title") jnull, getD o (ks "link") jnull,
      getD o (ks "snippet") jnull⟩
  | _ => Except.error (ks "AttributeError: item has no attribute get")

/-- The body of the serper success path: data.get("organic", []) or [],
sliced to num, each row projected to title/url/snippet. A non-dict payload or
a non-list organic value raises inside the try block. -/
def serperItems (data : JVal) (num : Int) : Except Chars (List SearchItem) :=
  match data with
  | jobj o =>
    (match pyOrJ (getD o (ks "organic") (jarr [])) (jarr []) with
     | jarr l => exMapM mkSearchItem (pySliceTo l num)
     | jstr s => if (pySliceTo s num).isEmpty then Except.ok []
         else Except.error (ks "AttributeError: str has no attribute get")
     | _ => Except.error (ks "TypeError: value is not subscriptable"))
  | _ => Except.error (ks "AttributeError: response has no attribute get")

def fallbackNote : Chars :=
  ks "No SERPER_API_KEY set; provide explicit URLs to fetch with http_get."

/-- tool_web_search. The environment lookup of SERPER_API_KEY is the first
argument; the provider round trip (httpx post and r.json()) is the second,
an error standing for any exception raised inside the try block. -/
def tool_web_search (serperKey : Option Chars) (providerResp : Except Chars JVal)
    (query : JVal) (num : Int) : SearchResult :=
  match serperKey with
  | some _ =>
    (match providerResp with
     | Except.ok data =>
       (match serperItems data num with
        | Except.ok items => ⟨ks "serper", query, items, none, none⟩
        | Except.error e => ⟨ks "serper", query, [], some e, none⟩)
     | Except.error e => ⟨ks "serper", query, [], some e, none⟩)
  | none => ⟨ks "fallback", query, [], none, some fallbackNote⟩

/-- The truncation marker of tool_http_get. -/
def truncMarker : Chars := ks "\n...TRUNCATED...\n"

/-- Truncation of fetched text: for text longer than max_chars keep a head of
floor(0.7 * max_chars) and a tail of floor(0.3 * max_chars) around the marker.
For the default max_chars = 20000 the Nat arithmetic 7 * n / 10 and 3 * n / 10
agrees with the float computation in the source (14000 and 6000). -/
def truncateContent (text : Chars) (max_chars : Nat) : Chars :=
  if max_chars < text.length then
    text.take (7 * max_chars / 10) ++ truncMarker ++
      text.drop (text.length - 3 * max_chars / 10)
  else text

/-- A completed fetch: status, resolved url, body text. -/
structure FetchOk where
  status : Int
  url : Chars
  text : Chars

/-- The result dict of tool_http_get. -/
structure FetchResult where
  status : Int
  url : JVal
  content : Option Chars
  error : Option Chars

/-- tool_http_get: the network round trip is the first argument (an error
standing for any exception in the try block); on success the body text is
truncated, on failure status 0 and the error string are returned. -/
def tool_http_get (outcome : Except Chars FetchOk) (url : JVal) (max_chars : Nat) :
    FetchResult :=
  match outcome with
  | Except.ok r => ⟨r.status, jstr r.url, some (truncateContent r.text max_chars), none⟩
  | Except.error e => ⟨0, url, none, some e⟩

/-- Number of (possibly overlapping) occurrences of pat in s; the claims only
distinguish zero, one and at least two, where overlap is immaterial. -/
def countSub (pat : Chars) : Chars → Nat
  | [] => 0
  | s@(_ :: tl) => (if pat.isPrefixOf s then 1 else 0) + countSub pat tl

/-! ### The orchestration loop of run_listingmatcher -/

/-- A Responses API payload: its id, the flattened output_text convenience
field, and the walkable output items (each behaving as a string-keyed
mapping, which covers both the attribute and the dict access in the source). -/
structure RawResp where
  id : Chars
  output_text : Option Chars
  output : List (List (Chars × JVal))

/-- One normalized tool call. -/
structure ToolCall where
  id : JVal
  name : JVal
  arguments : JVal

def isCallType : JVal → Bool
  | jstr s => s = ks "tool_call" || s = ks "function_call"
  | _ => false

/-- extract_tool_calls: normalize every output item whose type discriminator
is tool_call or function_call. -/
def extract_tool_calls (resp : RawResp) : List ToolCall :=
  resp.output.filterMap (fun o =>
    if isCallType (getD o (ks "type") jnull) then
      some ⟨pyOrJ (getD o (ks "id") jnull) (getD o (ks "tool_call_id") jnull),
            pyOrJ (getD o (ks "tool_name") jnull) (getD o (ks "name") jnull),
            getD o (ks "arguments") jnull⟩
    else none)

/-- Text fragments collected from the content blocks of a message item. -/
def textOfBlocks (blocks : List JVal) : List JVal :=
  blocks.filterMap (fun b =>
    match b with
    | jobj o =>
      let t := getD o (ks "type") jnull
      let tx := getD o (ks "text") jnull
      (match t with
       | jstr s =>
         if (s = ks "output_text" || s = ks "text" || s = ks "input_text") && truthy tx
         then some tx else none
       | _ => none)
    | _ => none)

def isStrJ : JVal → Bool
  | jstr _ => true
  | _ => false

/-- Fragments collected from one output item: message items contribute their
text blocks, output_text items their text value. Iterating a non-iterable
content value raises (caught further up). -/
def collectItemTexts (item : List (Chars × JVal)) : Except Chars (List JVal) :=
  match getD item (ks "type") jnull with
  | jstr t =>
    if t = ks "message" then
      match pyOrJ (getD item (ks "content") jnull) (jarr []) with
      | jarr blocks => Except.ok (textOfBlocks blocks)
      | jstr _ => Except.ok []
      | jobj _ => Except.ok []
      | _ => Except.error (ks "TypeError: content is not iterable")
    else if t = ks "output_text" then
      (match getD item (ks "text") jnull with
       | tv => Except.ok (if truthy tv then [tv] else []))
    else Except.ok []
  | _ => Except.ok []

/-- The item walk of extract_text, before its catch-all: collect fragments in
output order, join with newlines (raising if a fragment is not a string),
strip. -/
def extract_textE (resp : RawResp) : Except Chars Chars := do
  let parts ← exMapM collectItemTexts resp.output
  let strs ← exMapM (fun v =>
    match v with
    | jstr s => Except.ok s
    | _ => Except.error (ks "TypeError: sequence item is not str")) parts.flatten
  pure (pyStrip (List.intercalate ['\n'] strs))

/-- extract_text: the flattened output_text field when truthy (returned
unstripped), otherwise the item walk, any failure of which yields the empty
string. -/
def extract_text (resp : RawResp) : Chars :=
  match resp.output_text with
  | some t =>
    if !t.isEmpty then t
    else
      (match extract_textE resp with
       | Except.ok s => s
       | Except.error _ => [])
  | none =>
    (match extract_textE resp with
     | Except.ok s => s
     | Except.error _ => [])

/-- Python str() of a JSON-shaped value as interpolated by the f-string in the
unknown-tool branch (container reprs abbreviated: no claim inspects them). -/
def pyStr : JVal → Chars
  | jnull => ks "None"
  | jbool true => ks "True"
  | jbool false => ks "False"
  | jint n => intChars n
  | jfloat m e => floatChars m e
  | jstr s => s
  | jarr _ => ks "<list>"
  | jobj _ => ks "<dict>"

/-- Python int(x) for the num argument: ints, bools, floats (truncated toward
zero) and digit strings convert; everything else raises. -/
def pyToInt : JVal → Option Int
  | jint n => some n
  | jbool b => some (if b then 1 else 0)
  | jfloat m e => some (Int.tdiv m (10 ^ e))
  | jstr s =>
    let t := pyStrip s
    let (neg, t1) : Bool × Chars :=
      match t with
      | '-' :: r => (true, r)
      | '+' :: r => (false, r)
      | _ => (false, t)
    if t1.isEmpty || !(t1.all (fun c => c.isDigit)) then none
    else some (if neg then -(digitsVal t1 : Int) else (digitsVal t1 : Int))
  | _ => none

/-- Argument normalization of the tool loop: `or` with an empty dict, then a
string is json-decoded (an undecodable string becomes an empty dict). -/
def normArgs (a : JVal) : JVal :=
  match pyOrJ a (jobj []) with
  | jstr s =>
    (match jloads s with
     | some v => v
     | none => jobj [])
  | a1 => a1

/-- One submitted tool output row. -/
structure ToolOutput where
  tool_call_id : JVal
  output : Chars

def searchResultToJ (r : SearchResult) : JVal :=
  jobj ([(ks "engine", jstr r.engine), (ks "query", r.query),
         (ks "results", jarr (r.results.map (fun it =>
           jobj [(ks "title", it.title), (ks "url", it.url), (ks "snippet", it.snippet)])))] ++
        (match r.error with
         | some e => [(ks "error", jstr e)]
         | none => []) ++
        (match r.note with
         | some n => [(ks "note", jstr n)]
         | none => []))

def fetchResultToJ (r : FetchResult) : JVal :=
  jobj ([(ks "status", jint r.status), (ks "url", r.url)] ++
        (match r.content with
         | some c => [(ks "content", jstr c)]
         | none => []) ++
        (match r.error with
         | some e => [(ks "error", jstr e)]
         | none => []))

def isNameJ (v : JVal) (s : String) : Bool :=
  match v with
  | jstr t => t = ks s
  | _ => false

def unknownToolOutput (name : JVal) : Chars :=
  jdump (jobj [(ks "error", jstr (ks "unknown tool: " ++ pyStr name))])

/-- Processing of one extracted tool call inside the loop body. The search and
fetch executors are oracles closing over environment and network. An error is
an exception escaping the loop body (there is no handler around it in the
source, so it aborts the request). -/
def runToolCall (se : JVal → Int → SearchResult) (fe : JVal → FetchResult)
    (tc : ToolCall) : Except Chars ToolOutput :=
  let tcid := pyOrJ tc.id (jstr [])
  let args := normArgs tc.arguments
  if isNameJ tc.name "web_search" then
    match args with
    | jobj o =>
      let q := getD o (ks "query") (jstr [])
      (match pyToInt (pyOrJ (getD o (ks "num") (jint 5)) (jint 5)) with
       | some n => Except.ok ⟨tcid, jdump (searchResultToJ (se q n))⟩
       | none => Except.error (ks "ValueError: invalid literal for int"))
    | _ => Except.error (ks "AttributeError: arguments have no attribute get")
  else if isNameJ tc.name "http_get" then
    match args with
    | jobj o => Except.ok ⟨tcid, jdump (fetchResultToJ (fe (getD o (ks "url") (jstr []))))⟩
    | _ => Except.error (ks "AttributeError: arguments have no attribute get")
  else
    Except.ok ⟨tcid, unknownToolOutput tc.name⟩

/-- The tool_outputs list built for one round: one output per call, stopping
at the first uncaught exception. -/
def buildToolOutputs (se : JVal → Int → SearchResult) (fe : JVal → FetchResult)
    (calls : List ToolCall) : Except Chars (List ToolOutput) :=
  exMapM (runToolCall se fe) calls

/-- The tool loop: up to fuel rounds; a round with no extracted calls leaves
the loop. Returns the final response, the number of submit_tool_outputs
invocations and the number of tool outputs produced. The submission oracle
models client.responses.submit_tool_outputs (an error is the fatal 502 path).
The small status wait of the source has no observable effect and is omitted. -/
def toolLoop (oracle : Chars → List ToolOutput → Except Chars RawResp)
    (se : JVal → Int → SearchResult) (fe : JVal → FetchResult) :
    Nat → RawResp → Except Chars (RawResp × Nat × Nat)
  | 0, r => Except.ok (r, 0, 0)
  | fuel + 1, r =>
    match extract_tool_calls r with
    | [] => Except.ok (r, 0, 0)
    | c :: cs =>
      match buildToolOutputs se fe (c :: cs) with
      | Except.error e => Except.error e
      | Except.ok outs =>
        match oracle r.id outs with
        | Except.error e => Except.error e
        | Except.ok r2 =>
          match toolLoop oracle se fe fuel r2 with
          | Except.error e => Except.error e
          | Except.ok (rf, subs, execs) => Except.ok (rf, subs + 1, execs + outs.length)

/-- The response payload. -/
structure MatchResponse where
  reply : Chars
  properties : List Listing
deriving DecidableEq, Repr

def emDash : Chars := ks "—"

/-- The finalize block of run_listingmatcher: recover text, extract listings
(an uncaught mapping exception aborts), fail when both text and listings are
empty, otherwise reply with the text or the placeholder. -/
def finalizeResponse (resp : RawResp) (limit : Nat) : Except Chars MatchResponse :=
  let text := extract_text resp
  match extractListings text limit with
  | Except.error e => Except.error e
  | Except.ok out =>
    if text.isEmpty && out.isEmpty then
      Except.error (ks "Model returned no text. Try allow_web=false to isolate tools, or set SERPER_API_KEY.")
    else
      Except.ok ⟨if text.isEmpty then emDash else text, out⟩

/-- run_listingmatcher after request validation: the initial model call (the
create oracle), at most four tool rounds, then finalization. The Nat of the
result counts upstream model invocations: the initial call plus one per
tool-output submission. -/
def run_listingmatcher (create : Except Chars RawResp)
    (oracle : Chars → List ToolOutput → Except Chars RawResp)
    (se : JVal → Int → SearchResult) (fe : JVal → FetchResult)
    (limit : Nat) : Except Chars (MatchResponse × Nat) :=
  match create with
  | Except.error e => Except.error e
  | Except.ok r0 =>
    match toolLoop oracle se fe 4 r0 with
    | Except.error e => Except.error e
    | Except.ok (rf, subs, _execs) =>
      match finalizeResponse rf limit with
      | Except.error e => Except.error e
      | Except.ok resp => Except.ok (resp, 1 + subs)

/-! ### Shared fixtures for witnesses and counterexamples -/

def respHello : RawResp := ⟨ks "r2", some (ks "hello"), []⟩

def respToolCalling : RawResp :=
  ⟨ks "r1", some (ks "hi"),
   [[(ks "type", jstr (ks "function_call")), (ks "name", jstr (ks "nosuch"))]]⟩

def seNoKey : JVal → Int → SearchResult := fun q n =>
  tool_web_search none (Except.ok jnull) q n

def feDown : JVal → FetchResult := fun u =>
  tool_http_get (Except.error (ks "connection refused")) u 20000

def oracleRepeat : Chars → List ToolOutput → Except Chars RawResp := fun _ _ =>
  Except.ok respToolCalling

def oracleUnused : Chars → List ToolOutput → Except Chars RawResp := fun _ _ =>
  Except.error (ks "unused")

/-! ### Helper lemmas -/

theorem exMapM_length {α β : Type} {f : α → Except Chars β} :
    ∀ {xs : List α} {ys : List β}, exMapM f xs = Except.ok ys → ys.length = xs.length := by
  intro xs
  induction xs with
  | nil =>
    intro ys h
    simp only [exMapM, Except.ok.injEq] at h
    subst h
    rfl
  | cons a as ih =>
    intro ys h
    simp only [exMapM] at h
    cases hfa : f a <;> rw [hfa] at h
    · simp at h
    · cases hrec : exMapM f as <;> rw [hrec] at h
      · simp at h
      · simp only [Except.ok.injEq] at h
        subst h
        simp [ih hrec]

theorem exMapM_get {α β : Type} {f : α → Except Chars β} :
    ∀ {xs : List α} {ys : List β}, exMapM f xs = Except.ok ys →
      ∀ (i : Nat) (h1 : i < xs.length) (h2 : i < ys.length),
        f (xs.get ⟨i, h1⟩) = Except.ok (ys.get ⟨i, h2⟩) := by
  intro xs
  induction xs with
  | nil =>
    intro ys h i h1 h2
    exact absurd h1 (by simp)
  | cons a as ih =>
    intro ys h i h1 h2
    simp only [exMapM] at h
    cases hfa : f a <;> rw [hfa] at h
    · simp at h
    · cases hrec : exMapM f as <;> rw [hrec] at h
      · simp at h
      · simp only [Except.ok.injEq] at h
        subst h
        cases i with
        | zero => simpa using hfa
        | succ j =>
          simpa using ih hrec j (by simpa using h1) (by simpa using h2)

theorem toolLoop_subs_le {oracle : Chars → List ToolOutput → Except Chars RawResp}
    {se : JVal → Int → SearchResult} {fe : JVal → FetchResult} :
    ∀ (fuel : Nat) (r : RawResp) {rf : RawResp} {subs execs : Nat},
      toolLoop oracle se fe fuel r = Except.ok (rf, subs, execs) → subs ≤ fuel := by
  intro fuel
  induction fuel with
  | zero =>
    intro r rf subs execs h
    simp only [toolLoop, Except.ok.injEq, Prod.mk.injEq] at h
    omega
  | succ n ih =>
    intro r rf subs execs h
    cases hc : extract_tool_calls r with
    | nil =>
      simp only [toolLoop, hc, Except.ok.injEq, Prod.mk.injEq] at h
      omega
    | cons c cs =>
      simp only [toolLoop, hc] at h
      cases hb : buildToolOutputs se fe (c :: cs) with
      | error e => simp [hb] at h
      | ok outs =>
        simp only [hb] at h
        cases ho : oracle r.id outs with
        | error e => simp [ho] at h
        | ok r2 =>
          simp only [ho] at h
          cases ht : toolLoop oracle se fe n r2 with
          | error e => simp [ht] at h
          | ok p =>
            obtain ⟨rf2, s2, e2⟩ := p
            simp only [ht, Except.ok.injEq, Prod.mk.injEq] at h
            have := ih r2 ht
            omega

/-! ### C1: the round budget -/

/-- C1 (amended): one request performs at most five upstream model invocations,
the initial call plus at most four tool-output submissions; the round budget 4
of the source bounds the submissions, not the total. -/
theorem C1_round_budget :
    ∀ (create : Except Chars RawResp)
      (oracle : Chars → List ToolOutput → Except Chars RawResp)
      (se : JVal → Int → SearchResult) (fe : JVal → FetchResult)
      (limit : Nat) (mr : MatchResponse) (n : Nat),
      run_listingmatcher create oracle se fe limit = Except.ok (mr, n) → n ≤ 5 := by
  intro create oracle se fe limit mr n h
  cases create with
  | error e => simp [run_listingmatcher] at h
  | ok r0 =>
    simp only [run_listingmatcher] at h
    cases ht : toolLoop oracle se fe 4 r0 with
    | error e => simp [ht] at h
    | ok p =>
      obtain ⟨rf, subs, execs⟩ := p
      have hs := toolLoop_subs_le 4 r0 ht
      simp only [ht] at h
      cases hf : finalizeResponse rf limit with
      | error e => simp [hf] at h
      | ok resp =>
        simp only [hf, Except.ok.injEq, Prod.mk.injEq] at h
        omega

/-- Witness for C1 at a run with no tool calls: exactly one invocation. -/
theorem C1_round_budget_witness :
    run_listingmatcher (Except.ok respHello) oracleUnused seNoKey feDown 10 =
      Except.ok (⟨ks "hello", []⟩, 1) ∧ (1 : Nat) ≤ 5 :=
  ⟨rfl, C1_round_budget (Except.ok respHello) oracleUnused seNoKey feDown 10
    ⟨ks "hello", []⟩ 1 rfl⟩

/-- Counterexample to C1 as stated: a model that requests a tool on every
round drives one request to five model invocations, more than the claimed
bound of four. -/
theorem C1_round_budget_counterexample :
    run_listingmatcher (Except.ok respToolCalling) oracleRepeat seNoKey feDown 10 =
      Except.ok (⟨ks "hi", []⟩, 5) ∧ ¬(5 : Nat) ≤ 4 :=
  ⟨rfl, by decide⟩

/-! ### C8: zero tool calls terminate the loop in one round -/

/-- C8: a response from which no tool calls are extracted ends the loop at
once: the response is returned unchanged, no tool output is produced, no
submission happens, and a whole request spends exactly one model invocation. -/
theorem C8_zero_calls_one_round :
    ∀ (oracle : Chars → List ToolOutput → Except Chars RawResp)
      (se : JVal → Int → SearchResult) (fe : JVal → FetchResult)
      (fuel : Nat) (r : RawResp), extract_tool_calls r = [] →
      toolLoop oracle se fe (fuel + 1) r = Except.ok (r, 0, 0) ∧
      (∀ (limit : Nat) (mr : MatchResponse) (n : Nat),
        run_listingmatcher (Except.ok r) oracle se fe limit = Except.ok (mr, n) → n = 1) := by
  intro oracle se fe fuel r hr
  constructor
  · simp [toolLoop, hr]
  · intro limit mr n h
    simp only [run_listingmatcher] at h
    have h4 : toolLoop oracle se fe 4 r = Except.ok (r, 0, 0) := by
      rw [show (4 : Nat) = 3 + 1 from rfl]
      simp [toolLoop, hr]
    simp only [h4] at h
    cases hf : finalizeResponse r limit with
    | error e => simp [hf] at h
    | ok resp =>
      simp only [hf, Except.ok.injEq, Prod.mk.injEq] at h
      omega

/-- Witness for C8 at a concrete text-only response. -/
theorem C8_zero_calls_one_round_witness :
    toolLoop oracleUnused seNoKey feDown (3 + 1) respHello = Except.ok (respHello, 0, 0) :=
  (C8_zero_calls_one_round oracleUnused seNoKey feDown 3 respHello rfl).1

/-! ### C9: successful replies are never empty -/

/-- C9: every success of the finalize block carries a non-empty reply, and
whenever the recovered text is empty the reply is the em-dash placeholder. -/
theorem C9_reply_nonempty :
    ∀ (resp : RawResp) (limit : Nat) (mr : MatchResponse),
      finalizeResponse resp limit = Except.ok mr →
      mr.reply ≠ [] ∧ (extract_text resp = [] → mr.reply = emDash) := by
  intro resp limit mr h
  simp only [finalizeResponse] at h
  cases hx : extractListings (extract_text resp) limit with
  | error e => simp [hx] at h
  | ok out =>
    simp only [hx] at h
    split at h
    · simp at h
    · cases h
      by_cases ht : (extract_text resp).isEmpty = true
      · refine ⟨?_, fun _ => ?_⟩
        · show (if (extract_text resp).isEmpty = true then emDash else extract_text resp) ≠ []
          rw [if_pos ht]
          decide
        · show (if (extract_text resp).isEmpty = true then emDash else extract_text resp) = emDash
          rw [if_pos ht]
      · refine ⟨?_, fun he => ?_⟩
        · show (if (extract_text resp).isEmpty = true then emDash else extract_text resp) ≠ []
          rw [if_neg ht]
          exact List.isEmpty_eq_false.mp (eq_false_of_ne_true ht)
        · exact absurd (by simp [he]) ht

/-- Witness for C9 at a concrete successful finalization. -/
theorem C9_reply_nonempty_witness :
    (⟨ks "hello", []⟩ : MatchResponse).reply ≠ [] :=
  (C9_reply_nonempty respHello 10 ⟨ks "hello", []⟩ rfl).1

/-! ### C6: tool_web_search degrades instead of raising -/

/-- C6: with no search credential the result is the tagged fallback with a
note and no results; with a credential, a failing provider round trip or any
exception inside the try block yields empty results with the error set. In
all cases a SearchResult is returned, never an exception. -/
theorem C6_search_degrades :
    ∀ (q : JVal) (num : Int) (pr : Except Chars JVal),
      tool_web_search none pr q num = ⟨ks "fallback", q, [], none, some fallbackNote⟩ ∧
      (∀ (k : Chars) (e : Chars), tool_web_search (some k) (Except.error e) q num =
        ⟨ks "serper", q, [], some e, none⟩) ∧
      (∀ (k : Chars) (data : JVal) (e : Chars), serperItems data num = Except.error e →
        tool_web_search (some k) (Except.ok data) q num =
          ⟨ks "serper", q, [], some e, none⟩) := by
  intro q num pr
  refine ⟨rfl, fun k e => rfl, fun k data e h => ?_⟩
  simp [tool_web_search, h]

/-- Witness for C6 at a provider payload that raises inside the try block. -/
theorem C6_search_degrades_witness :
    tool_web_search (some (ks "key")) (Except.ok jnull) (jstr (ks "q")) 5 =
      ⟨ks "serper", jstr (ks "q"), [],
       some (ks "AttributeError: response has no attribute get"), none⟩ :=
  (C6_search_degrades (jstr (ks "q")) 5 (Except.ok jnull)).2.2 (ks "key") jnull _ rfl

/-! ### C10: search result count never exceeds num -/

theorem pySliceTo_length_le {α : Type} (l : List α) (n : Int) (hn : 0 ≤ n) :
    ((pySliceTo l n).length : Int) ≤ n := by
  simp only [pySliceTo, if_pos hn]
  have h1 : (l.take n.toNat).length ≤ n.toNat := by
    simp [List.length_take]
  omega

theorem serperItems_length_le {data : JVal} {num : Int} {items : List SearchItem}
    (hn : 0 ≤ num) (h : serperItems data num = Except.ok items) :
    ((items.length : Int)) ≤ num := by
  cases data with
  | jobj o =>
    simp only [serperItems] at h
    cases horg : pyOrJ (getD o (ks "organic") (jarr [])) (jarr []) with
    | jarr l =>
      simp only [horg] at h
      have := exMapM_length h
      have := pySliceTo_length_le l num hn
      omega
    | jstr s =>
      simp only [horg] at h
      by_cases he : (pySliceTo s num).isEmpty = true
      · rw [if_pos he] at h
        simp only [Except.ok.injEq] at h
        subst h
        simpa using hn
      · rw [if_neg he] at h
        simp at h
    | jnull => simp only [horg] at h; simp at h
    | jbool b => simp only [horg] at h; simp at h
    | jint n => simp only [horg] at h; simp at h
    | jfloat m e => simp only [horg] at h; simp at h
    | jobj o2 => simp only [horg] at h; simp at h
  | jnull => simp [serperItems] at h
  | jbool b => simp [serperItems] at h
  | jint n => simp [serperItems] at h
  | jfloat m e => simp [serperItems] at h
  | jstr s => simp [serperItems] at h
  | jarr l => simp [serperItems] at h

/-- C10: on the successful provider path the organic results are sliced to
the first num rows, so the returned result count never exceeds num. -/
theorem C10_results_at_most_num :
    ∀ (k : Chars) (data : JVal) (q : JVal) (num : Int) (items : List SearchItem),
      0 ≤ num → serperItems data num = Except.ok items →
      ((tool_web_search (some k) (Except.ok data) q num).results.length : Int) ≤ num := by
  intro k data q num items hn h
  simp only [tool_web_search, h]
  exact serperItems_length_le hn h

/-- Witness for C10 at a three-row organic list sliced to two. -/
theorem C10_results_at_most_num_witness :
    ((tool_web_search (some (ks "key"))
      (Except.ok (jobj [(ks "organic", jarr [jobj [], jobj [], jobj []])]))
      (jstr (ks "q")) 2).results.length : Int) ≤ 2 :=
  C10_results_at_most_num (ks "key") (jobj [(ks "organic", jarr [jobj [], jobj [], jobj []])])
    (jstr (ks "q")) 2 [⟨jnull, jnull, jnull⟩, ⟨jnull, jnull, jnull⟩] (by decide) rfl

/-! ### C2: one tool output per extracted call -/

theorem hasInfixB_iff {pat s : Chars} : hasInfixB pat s = true ↔ pat <:+: s := by
  induction s with
  | nil =>
    simp [hasInfixB, List.infix_nil, List.isEmpty_iff]
  | cons c tl ih =>
    simp [hasInfixB, List.infix_cons_iff, ih, List.isPrefixOf_iff_prefix, Bool.or_eq_true]

theorem unknownToolOutput_infix (name : JVal) :
    hasInfixB (ks "unknown tool: ") (unknownToolOutput name) = true := by
  rw [hasInfixB_iff]
  have h1 : ks "unknown tool: " <+: List.drop 10 (unknownToolOutput name) := ⟨_, rfl⟩
  have h2 : List.drop 10 (unknownToolOutput name) <:+ unknownToolOutput name :=
    List.drop_suffix _ _
  exact h1.isInfix.trans h2.isInfix

/-- C2 (amended): whenever the output-building loop completes (in particular,
always, when every call in the round has an unrecognized name), it produces
exactly one output per extracted call, and every call whose name is neither
web_search nor http_get receives an output carrying the explicit unknown-tool
error instead of being skipped; the loop then submits them and proceeds. The
completion proviso is forced by the argument coercions of the source: they can
raise for malformed web_search or http_get arguments, aborting the round (see
the counterexample). -/
theorem C2_one_output_per_call :
    ∀ (se : JVal → Int → SearchResult) (fe : JVal → FetchResult),
      (∀ calls outs, buildToolOutputs se fe calls = Except.ok outs →
        outs.length = calls.length ∧
        ∀ (i : Nat) (h1 : i < calls.length) (h2 : i < outs.length),
          isNameJ (calls.get ⟨i, h1⟩).name "web_search" = false →
          isNameJ (calls.get ⟨i, h1⟩).name "http_get" = false →
          (outs.get ⟨i, h2⟩).output = unknownToolOutput (calls.get ⟨i, h1⟩).name ∧
          hasInfixB (ks "unknown tool: ") (outs.get ⟨i, h2⟩).output = true) ∧
      (∀ tc : ToolCall, isNameJ tc.name "web_search" = false →
        isNameJ tc.name "http_get" = false →
        runToolCall se fe tc =
          Except.ok ⟨pyOrJ tc.id (jstr []), unknownToolOutput tc.name⟩) := by
  intro se fe
  have hunk : ∀ tc : ToolCall, isNameJ tc.name "web_search" = false →
      isNameJ tc.name "http_get" = false →
      runToolCall se fe tc = Except.ok ⟨pyOrJ tc.id (jstr []), unknownToolOutput tc.name⟩ := by
    intro tc hw hh
    simp [runToolCall, hw, hh]
  refine ⟨fun calls outs h => ⟨exMapM_length h, fun i h1 h2 hw hh => ?_⟩, hunk⟩
  have hcall := exMapM_get h i h1 h2
  rw [hunk (calls.get ⟨i, h1⟩) hw hh] at hcall
  have houtput : outs.get ⟨i, h2⟩ =
      ⟨pyOrJ (calls.get ⟨i, h1⟩).id (jstr []), unknownToolOutput (calls.get ⟨i, h1⟩).name⟩ := by
    injection hcall.symm
  rw [houtput]
  exact ⟨rfl, unknownToolOutput_infix _⟩

/-- Witness for C2 at a call with an unrecognized name. -/
theorem C2_one_output_per_call_witness :
    runToolCall seNoKey feDown ⟨jnull, jstr (ks "frobnicate"), jnull⟩ =
      Except.ok ⟨jstr [], unknownToolOutput (jstr (ks "frobnicate"))⟩ :=
  (C2_one_output_per_call seNoKey feDown).2 ⟨jnull, jstr (ks "frobnicate"), jnull⟩ rfl rfl

def badArgsCall : ToolCall := ⟨jstr (ks "1"), jstr (ks "web_search"), jarr [jint 1]⟩

/-- Counterexample to C2 as stated: a web_search call whose arguments decode
to a list makes the argument access raise, so the round aborts and no output
at all is produced or submitted for the (single, extracted) call. -/
theorem C2_one_output_per_call_counterexample :
    buildToolOutputs seNoKey feDown [badArgsCall] =
      Except.error (ks "AttributeError: arguments have no attribute get") ∧
    ∀ outs, ¬ buildToolOutputs seNoKey feDown [badArgsCall] = Except.ok outs := by
  refine ⟨rfl, fun outs h => ?_⟩
  have h2 := (show buildToolOutputs seNoKey feDown [badArgsCall] =
    Except.error (ks "AttributeError: arguments have no attribute get") from rfl).symm.trans h
  exact Except.noConfusion h2

/-! ### C5: fetched-page truncation -/

theorem countSub_le_cons (pat : Chars) (c : Char) (tl : Chars) :
    countSub pat tl ≤ countSub pat (c :: tl) := by
  simp only [countSub]
  split <;> omega

theorem countSub_le_append_left (pat xs ys : Chars) :
    countSub pat ys ≤ countSub pat (xs ++ ys) := by
  induction xs with
  | nil => simp
  | cons c tl ih => exact le_trans ih (countSub_le_cons pat c (tl ++ ys))

theorem countSub_pos (pat s : Chars) (hp : pat ≠ [])
    (hpre : pat.isPrefixOf s = true) : 1 ≤ countSub pat s := by
  cases s with
  | nil =>
    cases pat with
    | nil => exact absurd rfl hp
    | cons p ps => simp [List.isPrefixOf] at hpre
  | cons c tl =>
    simp only [countSub, hpre, if_true]
    omega

theorem countSub_once_ge (pat A B : Chars) (hp : pat ≠ []) :
    1 ≤ countSub pat (A ++ (pat ++ B)) :=
  le_trans
    (countSub_pos pat (pat ++ B) hp
      (List.isPrefixOf_iff_prefix.mpr (List.prefix_append pat B)))
    (countSub_le_append_left pat A (pat ++ B))

theorem countSub_twice_ge (pat X Y : Chars) (hp : pat ≠ []) :
    2 ≤ countSub pat (pat ++ (X ++ (pat ++ Y))) := by
  cases pat with
  | nil => exact absurd rfl hp
  | cons p ps =>
    show 2 ≤ countSub (p :: ps) (p :: (ps ++ (X ++ ((p :: ps) ++ Y))))
    have hpre : (p :: ps).isPrefixOf (p :: (ps ++ (X ++ ((p :: ps) ++ Y)))) = true := by
      apply List.isPrefixOf_iff_prefix.mpr
      exact ⟨X ++ ((p :: ps) ++ Y), by simp⟩
    simp only [countSub, hpre, if_true]
    have h1 : 1 ≤ countSub (p :: ps) ((ps ++ X) ++ ((p :: ps) ++ Y)) :=
      countSub_once_ge (p :: ps) (ps ++ X) Y (by simp)
    rw [List.append_assoc] at h1
    omega

/-- C5 (amended): text at or below the 20000-character threshold is returned
unchanged; longer text becomes a 14000-character head (floor of 70 percent)
and a 6000-character tail (floor of 30 percent) joined by the truncation
marker, so the result length is exactly threshold plus marker length and the
marker occurs at least once. It need not occur exactly once, because the
fetched page may itself contain the marker (see the counterexample). -/
theorem C5_truncation :
    ∀ t : Chars,
      (t.length ≤ 20000 → truncateContent t 20000 = t) ∧
      (20000 < t.length →
        truncateContent t 20000 =
          t.take 14000 ++ truncMarker ++ t.drop (t.length - 6000) ∧
        (truncateContent t 20000).length = 20000 + truncMarker.length ∧
        1 ≤ countSub truncMarker (truncateContent t 20000)) := by
  intro t
  constructor
  · intro hle
    simp [truncateContent, Nat.not_lt.mpr hle]
  · intro hgt
    have heq : truncateContent t 20000 =
        t.take 14000 ++ truncMarker ++ t.drop (t.length - 6000) := by
      simp only [truncateContent, if_pos hgt]
    refine ⟨heq, ?_, ?_⟩
    · rw [heq, List.length_append, List.length_append, List.length_take, List.length_drop]
      have hm : truncMarker.length = 17 := rfl
      have hmin : min 14000 t.length = 14000 := Nat.min_eq_left (by omega)
      omega
    · rw [heq]
      have h1 := countSub_once_ge truncMarker (t.take 14000)
        (t.drop (t.length - 6000)) (by decide)
      simpa [List.append_assoc] using h1

/-- Witness for C5 at a short page left unchanged. -/
theorem C5_truncation_witness :
    truncateContent (ks "abc") 20000 = ks "abc" :=
  (C5_truncation (ks "abc")).1 (by decide)

def badPage : Chars := truncMarker ++ List.replicate 20000 'a'

/-- Counterexample to C5 as stated: a page that itself starts with the
truncation marker is over the threshold, and the truncated content contains
the marker more than once, so "exactly once" fails. -/
theorem C5_truncation_counterexample :
    20000 < badPage.length ∧
    countSub truncMarker (truncateContent badPage 20000) ≠ 1 := by
  have hm : truncMarker.length = 17 := rfl
  have hlen : badPage.length = 20017 := by
    rw [show badPage = truncMarker ++ List.replicate 20000 'a' from rfl,
      List.length_append, List.length_replicate, hm]
  refine ⟨by omega, ?_⟩
  have heq := ((C5_truncation badPage).2 (by omega)).1
  have htake : badPage.take 14000 =
      truncMarker ++ (List.replicate 20000 'a').take 13983 := by
    rw [show badPage = truncMarker ++ List.replicate 20000 'a' from rfl,
      List.take_append_eq_append_take, List.take_of_length_le (by rw [hm]; omega), hm]
  intro hone
  rw [heq, htake] at hone
  have h2 := countSub_twice_ge truncMarker ((List.replicate 20000 'a').take 13983)
    (badPage.drop (badPage.length - 6000)) (by decide)
  rw [show truncMarker ++ ((List.replicate 20000 'a').take 13983 ++
      (truncMarker ++ badPage.drop (badPage.length - 6000))) =
      truncMarker ++ (List.replicate 20000 'a').take 13983 ++ truncMarker ++
        badPage.drop (badPage.length - 6000) by
      rw [List.append_assoc, List.append_assoc]] at h2
  omega

/-! ### C4: the listing count never exceeds the limit -/

/-- C4: for every extracted properties array and every limit in the documented
range, the number of listings in the response is at most the limit. -/
theorem C4_limit_bound :
    ∀ (text : Chars) (limit : Nat) (L : List Listing),
      1 ≤ limit → limit ≤ 20 → extractListings text limit = Except.ok L →
      L.length ≤ limit := by
  intro text limit L h1 h2 h
  have hlen := exMapM_length h
  have htake : ((extractProps text).take limit).length ≤ limit := by
    simp [List.length_take]
  omega

def ctext3 : Chars :=
  ks "\"properties\": [\x7b\"beds\": 1\x7d, \x7b\"beds\": 2\x7d, \x7b\"beds\": 3\x7d]"

/-- Witness for C4: a three-element array truncated to a limit of two. -/
theorem C4_limit_bound_witness :
    extractListings ctext3 2 =
      Except.ok [{ beds := some 1 }, { beds := some 2 }] ∧
    ([({ beds := some 1 } : Listing), { beds := some 2 }]).length ≤ 2 :=
  ⟨rfl, C4_limit_bound ctext3 2 [{ beds := some 1 }, { beds := some 2 }]
    (by decide) (by decide) rfl⟩

/-! ### C3: behaviour of the structured-payload extraction -/

theorem buildListing_fields {o : List (Chars × JVal)} {l : Listing}
    (h : buildListing o = some l) :
    vStrField (olookup o (ks "mls")) = some l.mls ∧
    vStrField (olookup o (ks "url")) = some l.url ∧
    vStrField (olookup o (ks "address")) = some l.address ∧
    vIntField (olookup o (ks "price_cad")) = some l.price_cad ∧
    vIntField (olookup o (ks "beds")) = some l.beds ∧
    vFloatField (olookup o (ks "baths")) = some l.baths ∧
    vStrField (olookup o (ks "type")) = some l.type ∧
    vStrField (olookup o (ks "note")) = some l.note := by
  cases h1 : vStrField (olookup o (ks "mls")) with
  | none => simp [buildListing, h1] at h
  | some mls =>
  cases h2 : vStrField (olookup o (ks "url")) with
  | none => simp [buildListing, h1, h2] at h
  | some url =>
  cases h3 : vStrField (olookup o (ks "address")) with
  | none => simp [buildListing, h1, h2, h3] at h
  | some address =>
  cases h4 : vIntField (olookup o (ks "price_cad")) with
  | none => simp [buildListing, h1, h2, h3, h4] at h
  | some price_cad =>
  cases h5 : vIntField (olookup o (ks "beds")) with
  | none => simp [buildListing, h1, h2, h3, h4, h5] at h
  | some beds =>
  cases h6 : vFloatField (olookup o (ks "baths")) with
  | none => simp [buildListing, h1, h2, h3, h4, h5, h6] at h
  | some baths =>
  cases h7 : vStrField (olookup o (ks "type")) with
  | none => simp [buildListing, h1, h2, h3, h4, h5, h6, h7] at h
  | some ty =>
  cases h8 : vStrField (olookup o (ks "note")) with
  | none => simp [buildListing, h1, h2, h3, h4, h5, h6, h7, h8] at h
  | some note =>
  simp only [buildListing, h1, h2, h3, h4, h5, h6, h7, h8, Option.some.injEq] at h
  subst h
  exact ⟨rfl, rfl, rfl, rfl, rfl, rfl, rfl, rfl⟩

/-- C3 (amended): the array extraction itself never raises -- a missing match
or an unparseable array yields the empty listing sequence; each element goes
through full-shape construction first with recognized absent fields becoming
null, and a failed full construction falls back to the recognized-field
projection; but an element for which both attempts fail raises an uncaught
exception that fails the request instead of being dropped (see the
counterexample). -/
theorem C3_extraction_behaviour :
    (∀ (text : Chars) (limit : Nat), findPropsArray text = none →
      extractListings text limit = Except.ok []) ∧
    (∀ (text : Chars) (limit : Nat) (g : Chars), findPropsArray text = some g →
      jloads g = none → extractListings text limit = Except.ok []) ∧
    (∀ (o : List (Chars × JVal)) (l : Listing), listingFull (jobj o) = some l →
      (olookup o (ks "mls") = none → l.mls = none) ∧
      (olookup o (ks "url") = none → l.url = none) ∧
      (olookup o (ks "address") = none → l.address = none) ∧
      (olookup o (ks "price_cad") = none → l.price_cad = none) ∧
      (olookup o (ks "beds") = none → l.beds = none) ∧
      (olookup o (ks "baths") = none → l.baths = none) ∧
      (olookup o (ks "type") = none → l.type = none) ∧
      (olookup o (ks "note") = none → l.note = none)) ∧
    (∀ v : JVal, listingFull v = none → mapElement v = listingFallback v) := by
  refine ⟨?_, ?_, ?_, ?_⟩
  · intro text limit h
    simp [extractListings, extractProps, h, exMapM]
  · intro text limit g hg h
    simp [extractListings, extractProps, hg, h, exMapM]
  · intro o l h
    simp only [listingFull] at h
    have hf := buildListing_fields h
    refine ⟨fun ha => ?_, fun ha => ?_, fun ha => ?_, fun ha => ?_,
            fun ha => ?_, fun ha => ?_, fun ha => ?_, fun ha => ?_⟩
    · have hx := hf.1; rw [ha] at hx; exact (Option.some_inj.mp hx).symm
    · have hx := hf.2.1; rw [ha] at hx; exact (Option.some_inj.mp hx).symm
    · have hx := hf.2.2.1; rw [ha] at hx; exact (Option.some_inj.mp hx).symm
    · have hx := hf.2.2.2.1; rw [ha] at hx; exact (Option.some_inj.mp hx).symm
    · have hx := hf.2.2.2.2.1; rw [ha] at hx; exact (Option.some_inj.mp hx).symm
    · have hx := hf.2.2.2.2.2.1; rw [ha] at hx; exact (Option.some_inj.mp hx).symm
    · have hx := hf.2.2.2.2.2.2.1; rw [ha] at hx; exact (Option.some_inj.mp hx).symm
    · have hx := hf.2.2.2.2.2.2.2; rw [ha] at hx; exact (Option.some_inj.mp hx).symm
  · intro v h
    simp [mapElement, h]

/-- Witness for C3 at text with no properties array. -/
theorem C3_extraction_behaviour_witness :
    extractListings (ks "no payload here") 5 = Except.ok [] :=
  C3_extraction_behaviour.1 (ks "no payload here") 5 rfl

def ctext42 : Chars := ks "\"properties\": [42]"

/-- Counterexample to C3 as stated: the element 42 fails full construction
(not a mapping) and then the fallback projection raises a TypeError, so the
element is not dropped -- the whole mapping fails. -/
theorem C3_extraction_counterexample :
    extractListings ctext42 10 =
      Except.error (ks "TypeError: argument is not iterable") ∧
    ∀ L, ¬ extractListings ctext42 10 = Except.ok L := by
  refine ⟨rfl, fun L h => ?_⟩
  have h2 := (show extractListings ctext42 10 =
    Except.error (ks "TypeError: argument is not iterable") from rfl).symm.trans h
  exact Except.noConfusion h2

/-! ### Digits -/

theorem natToCharsF_succ (f n : Nat) :
    natToCharsF (f + 1) n =
      if n < 10 then [digitChar n] else natToCharsF f (n / 10) ++ [digitChar (n % 10)] := rfl

theorem natToCharsF_irrel :
    ∀ (f : Nat) (n : Nat) (f2 : Nat), n ≤ f → n ≤ f2 →
      natToCharsF (f + 1) n = natToCharsF (f2 + 1) n := by
  intro f
  induction f with
  | zero =>
    intro n f2 h1 h2
    interval_cases n
    cases f2 <;> simp [natToCharsF]
  | succ g ih =>
    intro n f2 h1 h2
    by_cases hn : n < 10
    · cases f2 <;> simp [natToCharsF, hn]
    · obtain ⟨g2, rfl⟩ : ∃ g2, f2 = g2 + 1 := ⟨f2 - 1, by omega⟩
      conv_lhs => rw [natToCharsF_succ, if_neg hn]
      conv_rhs => rw [natToCharsF_succ, if_neg hn]
      rw [ih (n / 10) g2 (by omega) (by omega)]

theorem natToChars_small {n : Nat} (h : n < 10) : natToChars n = [digitChar n] := by
  simp [natToChars, natToCharsF, h]

theorem natToChars_step {n : Nat} (h : 10 ≤ n) :
    natToChars n = natToChars (n / 10) ++ [digitChar (n % 10)] := by
  show natToCharsF (n + 1) n = _
  conv_lhs => rw [natToCharsF_succ, if_neg (by omega : ¬n < 10)]
  obtain ⟨g, rfl⟩ : ∃ g, n = g + 1 := ⟨n - 1, by omega⟩
  show natToCharsF (g + 1) ((g + 1) / 10) ++ _ = natToCharsF ((g + 1) / 10 + 1) ((g + 1) / 10) ++ _
  rw [natToCharsF_irrel g ((g + 1) / 10) ((g + 1) / 10) (by omega) (le_refl _)]

theorem natToChars_ne_nil (n : Nat) : natToChars n ≠ [] := by
  by_cases h : n < 10
  · simp [natToChars_small h]
  · rw [natToChars_step (by omega)]
    simp

theorem digitChar_toNat {d : Nat} (h : d < 10) : (digitChar d).toNat = 48 + d := by
  interval_cases d <;> rfl

theorem digitChar_isDigit (d : Nat) : (digitChar d).isDigit = true := by
  rcases d with _|_|_|_|_|_|_|_|_|d <;> rfl

theorem natToChars_all_digits (n : Nat) : ∀ c ∈ natToChars n, c.isDigit = true := by
  induction n using Nat.strong_induction_on with
  | _ n ih =>
    by_cases h : n < 10
    · rw [natToChars_small h]
      intro c hc
      simp at hc
      subst hc
      exact digitChar_isDigit n
    · rw [natToChars_step (by omega)]
      intro c hc
      rw [List.mem_append] at hc
      rcases hc with hc | hc
      · exact ih (n / 10) (by omega) c hc
      · simp at hc
        subst hc
        exact digitChar_isDigit _

theorem digitsVal_append_singleton (xs : Chars) (c : Char) :
    digitsVal (xs ++ [c]) = 10 * digitsVal xs + (c.toNat - 48) := by
  simp [digitsVal, List.foldl_append]

theorem digitsVal_natToChars (n : Nat) : digitsVal (natToChars n) = n := by
  induction n using Nat.strong_induction_on with
  | _ n ih =>
    by_cases h : n < 10
    · rw [natToChars_small h]
      simp [digitsVal, digitChar_toNat h]
    · rw [natToChars_step (by omega), digitsVal_append_singleton,
        ih (n / 10) (by omega), digitChar_toNat (by omega : n % 10 < 10)]
      omega

theorem natToChars_head_ne_zero :
    ∀ n, 1 ≤ n → ∀ c cs, natToChars n = c :: cs → c ≠ '0' := by
  intro n
  induction n using Nat.strong_induction_on with
  | _ n ih =>
    intro hn c cs hc
    by_cases h : n < 10
    · rw [natToChars_small h] at hc
      injection hc with h1 h2
      subst h1
      interval_cases n <;> decide
    · rw [natToChars_step (by omega)] at hc
      obtain ⟨c2, cs2, hcc⟩ : ∃ c2 cs2, natToChars (n / 10) = c2 :: cs2 := by
        cases hx : natToChars (n / 10) with
        | nil => exact absurd hx (natToChars_ne_nil _)
        | cons a b => exact ⟨a, b, rfl⟩
      rw [hcc] at hc
      injection hc with h1 h2
      subst h1
      exact ih (n / 10) (by omega) (by omega) c2 cs2 hcc

theorem natToChars_length_le :
    ∀ n k, 1 ≤ k → n < 10 ^ k → (natToChars n).length ≤ k := by
  intro n
  induction n using Nat.strong_induction_on with
  | _ n ih =>
    intro k hk h
    by_cases hn : n < 10
    · rw [natToChars_small hn]
      simpa using hk
    · have hk2 : 2 ≤ k := by
        by_contra hcon
        have hk1 : k = 1 := by omega
        subst hk1
        simp at h
        omega
      have h10 : 10 ^ k = 10 ^ (k - 1) * 10 := by
        rw [← pow_succ]
        congr 1
        omega
      have hdiv : n / 10 < 10 ^ (k - 1) :=
        (Nat.div_lt_iff_lt_mul (by norm_num : (0 : Nat) < 10)).mpr (by omega)
      have := ih (n / 10) (by omega) (k - 1) (by omega) hdiv
      rw [natToChars_step (by omega)]
      simp only [List.length_append, List.length_cons, List.length_nil]
      omega

/-! ### Digit strings and number tokens -/

theorem digitsVal_cons (c : Char) (s : Chars) :
    digitsVal (c :: s) = List.foldl (fun a x => 10 * a + (x.toNat - 48)) (c.toNat - 48) s := by
  simp [digitsVal]

theorem digitsVal_foldl_acc :
    ∀ (ys : Chars) (a : Nat),
      List.foldl (fun x c => 10 * x + (c.toNat - 48)) a ys =
        a * 10 ^ ys.length + digitsVal ys := by
  intro ys
  induction ys with
  | nil => intro a; simp [digitsVal]
  | cons c tl ih =>
    intro a
    show List.foldl _ (10 * a + (c.toNat - 48)) tl = _
    rw [ih (10 * a + (c.toNat - 48)), digitsVal_cons, ih (c.toNat - 48)]
    simp [List.length_cons, pow_succ]
    ring

theorem digitsVal_append (xs ys : Chars) :
    digitsVal (xs ++ ys) = digitsVal xs * 10 ^ ys.length + digitsVal ys := by
  show List.foldl _ 0 (xs ++ ys) = _
  rw [List.foldl_append]
  exact digitsVal_foldl_acc ys (digitsVal xs)

theorem digitsVal_replicate_zero (k : Nat) (t : Chars) :
    digitsVal (List.replicate k '0' ++ t) = digitsVal t := by
  induction k with
  | zero => simp
  | succ j ih =>
    show digitsVal ('0' :: (List.replicate j '0' ++ t)) = _
    rw [digitsVal_cons, digitsVal_foldl_acc]
    simpa using ih

/-- The stop condition for the number grammar: the next character (if any)
cannot extend the token. -/
def stopsNum : Chars → Prop
  | [] => True
  | c :: _ => c.isDigit = false ∧ c ≠ '.' ∧ c ≠ 'e' ∧ c ≠ 'E'

/-- Weak stop: the next character (if any) is not a digit. -/
def stopsDigits : Chars → Prop
  | [] => True
  | c :: _ => c.isDigit = false

theorem stopsNum_stopsDigits {r : Chars} (h : stopsNum r) : stopsDigits r := by
  cases r with
  | nil => trivial
  | cons c tl => exact h.1

theorem takeWhile_digits_append (xs ys : Chars) (hx : ∀ c ∈ xs, c.isDigit = true)
    (hy : stopsDigits ys) : (xs ++ ys).takeWhile (fun c => c.isDigit) = xs := by
  induction xs with
  | nil =>
    cases ys with
    | nil => rfl
    | cons c tl =>
      have hy2 : c.isDigit = false := hy
      simp [List.takeWhile, hy2]
  | cons c tl ih =>
    have hc := hx c (by simp)
    simp only [List.cons_append, List.takeWhile, hc]
    show c :: List.takeWhile (fun c => c.isDigit) (tl ++ ys) = c :: tl
    rw [ih (fun c hc2 => hx c (by simp [hc2]))]

theorem dropWhile_digits_append (xs ys : Chars) (hx : ∀ c ∈ xs, c.isDigit = true)
    (hy : stopsDigits ys) : (xs ++ ys).dropWhile (fun c => c.isDigit) = ys := by
  induction xs with
  | nil =>
    cases ys with
    | nil => rfl
    | cons c tl =>
      have hy2 : c.isDigit = false := hy
      simp [List.dropWhile, hy2]
  | cons c tl ih =>
    have hc := hx c (by simp)
    simp only [List.cons_append, List.dropWhile, hc]
    show List.dropWhile (fun c => c.isDigit) (tl ++ ys) = ys
    exact ih (fun c hc2 => hx c (by simp [hc2]))

theorem span_digits_append (xs ys : Chars) (hx : ∀ c ∈ xs, c.isDigit = true)
    (hy : stopsDigits ys) : (xs ++ ys).span (fun c => c.isDigit) = (xs, ys) := by
  rw [List.span_eq_take_drop, takeWhile_digits_append xs ys hx hy,
    dropWhile_digits_append xs ys hx hy]

theorem parseSign_minus (r : Chars) : parseSign ('-' :: r) = (true, r) := rfl

theorem parseSign_of_digit {c : Char} (r : Chars) (h : c.isDigit = true) :
    parseSign (c :: r) = (false, c :: r) := by
  have hne : c ≠ '-' := by
    intro hc
    subst hc
    simp at h
  simp [parseSign, hne]

theorem parseExpPart_stop {rest : Chars} (h : stopsNum rest) :
    parseExpPart rest = some (0, rest) := by
  cases rest with
  | nil => rfl
  | cons c tl =>
    obtain ⟨_, _, he, hE⟩ := h
    simp [parseExpPart, he, hE]

theorem parseNumTail_int (neg : Bool) (ds : Chars) {r1 : Chars} (h : stopsNum r1) :
    parseNumTail neg ds r1 =
      some (jint (if neg then -(digitsVal ds : Int) else (digitsVal ds : Int)), r1) := by
  have hdot : ¬r1.head? = some '.' := by
    cases r1 with
    | nil => simp
    | cons c tl =>
      simp only [List.head?_cons, Option.some.injEq]
      intro hc
      subst hc
      exact absurd h.2.1 (by simp)
  simp only [parseNumTail, if_neg hdot, parseExpPart_stop h]
  simp

theorem natToChars_cons (a : Nat) :
    ∃ c cs, natToChars a = c :: cs ∧ c.isDigit = true := by
  cases hx : natToChars a with
  | nil => exact absurd hx (natToChars_ne_nil a)
  | cons c cs =>
    refine ⟨c, cs, rfl, natToChars_all_digits a c ?_⟩
    rw [hx]
    simp

theorem natToChars_no_lead0 (a : Nat) :
    ¬((natToChars a).head? = some '0' ∧ (natToChars a).length > 1) := by
  rintro ⟨h1, h2⟩
  by_cases ha : a < 10
  · rw [natToChars_small ha] at h2
    simp at h2
  · obtain ⟨c, cs, hcc, _⟩ := natToChars_cons a
    rw [hcc] at h1
    simp only [List.head?_cons, Option.some.injEq] at h1
    exact natToChars_head_ne_zero a (by omega) c cs hcc h1

theorem fracChars_spec {e : Nat} (he : 1 ≤ e) (a : Nat) :
    (List.replicate (e - (natToChars (a % 10 ^ e)).length) '0' ++
        natToChars (a % 10 ^ e)).length = e ∧
      digitsVal (List.replicate (e - (natToChars (a % 10 ^ e)).length) '0' ++
        natToChars (a % 10 ^ e)) = a % 10 ^ e ∧
      (∀ c ∈ List.replicate (e - (natToChars (a % 10 ^ e)).length) '0' ++
        natToChars (a % 10 ^ e), c.isDigit = true) := by
  have hlt : a % 10 ^ e < 10 ^ e := Nat.mod_lt a (by positivity)
  have hlen : (natToChars (a % 10 ^ e)).length ≤ e := natToChars_length_le _ e he hlt
  refine ⟨?_, (digitsVal_replicate_zero _ _).trans (digitsVal_natToChars _), ?_⟩
  · simp only [List.length_append, List.length_replicate]
    omega
  · intro c hc
    rw [List.mem_append] at hc
    rcases hc with hc | hc
    · rw [List.eq_of_mem_replicate hc]
      rfl
    · exact natToChars_all_digits _ c hc

theorem parseNumTail_float (neg : Bool) {e : Nat} (he : 1 ≤ e) (a : Nat) {rest : Chars}
    (h : stopsNum rest) :
    parseNumTail neg (natToChars (a / 10 ^ e))
      ('.' :: ((List.replicate (e - (natToChars (a % 10 ^ e)).length) '0' ++
        natToChars (a % 10 ^ e)) ++ rest)) =
      some (jfloat (if neg then -(a : Int) else (a : Int)) e, rest) := by
  obtain ⟨hflen, hfval, hfdig⟩ := fracChars_spec he a
  simp only [parseNumTail, List.head?_cons, if_pos rfl, List.tail_cons]
  rw [span_digits_append _ _ hfdig (stopsNum_stopsDigits h)]
  have hne : ¬(List.replicate (e - (natToChars (a % 10 ^ e)).length) '0' ++
      natToChars (a % 10 ^ e)).isEmpty = true := by
    rw [List.isEmpty_iff]
    intro hnil
    rw [hnil] at hflen
    simp at hflen
    omega
  rw [if_neg hne, parseExpPart_stop h]
  have hle : ¬((List.replicate (e - (natToChars (a % 10 ^ e)).length) '0' ++
      natToChars (a % 10 ^ e)).length : Int) ≤ 0 := by
    rw [hflen]
    omega
  simp only [if_neg hle]
  rw [digitsVal_append, hfval, digitsVal_natToChars, hflen]
  have hval : a / 10 ^ e * 10 ^ e + a % 10 ^ e = a := by
    rw [Nat.mul_comm]
    exact Nat.div_add_mod a (10 ^ e)
  rw [hval]
  congr 1

theorem parseNum_intChars (n : Int) {rest : Chars} (h : stopsNum rest) :
    parseNum (intChars n ++ rest) = some (jint n, rest) := by
  have hspan := span_digits_append (natToChars n.natAbs) rest
    (natToChars_all_digits _) (stopsNum_stopsDigits h)
  have hne : ¬(natToChars n.natAbs).isEmpty = true := by
    rw [List.isEmpty_iff]
    exact natToChars_ne_nil _
  rcases lt_or_ge n 0 with hneg | hpos
  · rw [show intChars n ++ rest = '-' :: (natToChars n.natAbs ++ rest) by
      simp [intChars, hneg]]
    simp only [parseNum, parseSign_minus]
    rw [hspan]
    simp only [if_neg hne, if_neg (natToChars_no_lead0 _)]
    rw [parseNumTail_int true _ h]
    rw [digitsVal_natToChars]
    simp only [if_true, Option.some.injEq, Prod.mk.injEq]
    refine ⟨?_, trivial⟩
    congr 1
    omega
  · obtain ⟨c, cs, hcc, hcd⟩ := natToChars_cons n.natAbs
    rw [show intChars n ++ rest = natToChars n.natAbs ++ rest by simp [intChars, not_lt.mpr hpos]]
    rw [show natToChars n.natAbs ++ rest = c :: (cs ++ rest) by rw [hcc]; rfl]
    simp only [parseNum, parseSign_of_digit _ hcd]
    rw [show c :: (cs ++ rest) = natToChars n.natAbs ++ rest by rw [hcc]; rfl]
    rw [hspan]
    simp only [if_neg hne, if_neg (natToChars_no_lead0 _)]
    rw [parseNumTail_int false _ h]
    rw [digitsVal_natToChars]
    simp only [if_false, Option.some.injEq, Prod.mk.injEq]
    refine ⟨?_, trivial⟩
    congr 1
    exact Int.natAbs_of_nonneg hpos

theorem parseNum_floatChars (m : Int) {e : Nat} (he : 1 ≤ e) {rest : Chars} (h : stopsNum rest) :
    parseNum ((if m < 0 then ['-'] else []) ++ natToChars (m.natAbs / 10 ^ e) ++
      '.' :: ((List.replicate (e - (natToChars (m.natAbs % 10 ^ e)).length) '0' ++
        natToChars (m.natAbs % 10 ^ e)) ++ rest)) = some (jfloat m e, rest) := by
  have hne : ¬(natToChars (m.natAbs / 10 ^ e)).isEmpty = true := by
    rw [List.isEmpty_iff]
    exact natToChars_ne_nil _
  have hstop : stopsDigits ('.' :: ((List.replicate
      (e - (natToChars (m.natAbs % 10 ^ e)).length) '0' ++
      natToChars (m.natAbs % 10 ^ e)) ++ rest)) := by
    show ('.').isDigit = false
    decide
  by_cases hm : m < 0
  · rw [if_pos hm]
    show parseNum ('-' :: (natToChars (m.natAbs / 10 ^ e) ++ '.' :: _)) = _
    simp only [parseNum, parseSign_minus]
    rw [span_digits_append _ _ (natToChars_all_digits _) hstop]
    simp only [if_neg hne, if_neg (natToChars_no_lead0 _)]
    rw [parseNumTail_float true he m.natAbs h]
    simp only [if_true, Option.some.injEq, Prod.mk.injEq]
    refine ⟨?_, trivial⟩
    have hv : -(m.natAbs : Int) = m := by omega
    rw [hv]
  · obtain ⟨c, cs, hcc, hcd⟩ := natToChars_cons (m.natAbs / 10 ^ e)
    rw [if_neg hm]
    rw [show ([] : Chars) ++ natToChars (m.natAbs / 10 ^ e) ++
      '.' :: ((List.replicate (e - (natToChars (m.natAbs % 10 ^ e)).length) '0' ++
        natToChars (m.natAbs % 10 ^ e)) ++ rest) = c :: (cs ++
      '.' :: ((List.replicate (e - (natToChars (m.natAbs % 10 ^ e)).length) '0' ++
        natToChars (m.natAbs % 10 ^ e)) ++ rest)) by rw [List.nil_append, hcc]; rfl]
    simp only [parseNum, parseSign_of_digit _ hcd]
    rw [show c :: (cs ++ '.' :: ((List.replicate
        (e - (natToChars (m.natAbs % 10 ^ e)).length) '0' ++
        natToChars (m.natAbs % 10 ^ e)) ++ rest)) = natToChars (m.natAbs / 10 ^ e) ++
      '.' :: ((List.replicate (e - (natToChars (m.natAbs % 10 ^ e)).length) '0' ++
        natToChars (m.natAbs % 10 ^ e)) ++ rest) by rw [hcc]; rfl]
    rw [span_digits_append _ _ (natToChars_all_digits _) hstop]
    simp only [if_neg hne, if_neg (natToChars_no_lead0 _)]
    rw [parseNumTail_float false he m.natAbs h]
    simp only [if_false, Option.some.injEq, Prod.mk.injEq]
    refine ⟨?_, trivial⟩
    have hv : ((m.natAbs : Int)) = m := by omega
    rw [hv]
    simp

theorem parseStrRest_close (r : Chars) : parseStrRest ('"' :: r) = some ([], r) := rfl

theorem parseStrRest_raw {c : Char} (r : Chars) (h32 : 32 ≤ c.toNat)
    (hq : c ≠ '"') (hb : c ≠ '\\') :
    parseStrRest (c :: r) = (parseStrRest r).map (fun p => (c :: p.1, p.2)) := by
  rw [parseStrRest.eq_def]
  split
  · rename_i heq
    exact absurd heq (by simp)
  · rename_i heq
    exact absurd (List.cons.inj heq).1 hq
  · rename_i heq
    exact absurd (List.cons.inj heq).1 hb
  · rename_i heq
    exact absurd (List.cons.inj heq).1 hb
  · rename_i c2 r2 hA hB hC heq
    obtain ⟨hc, hr⟩ := List.cons.inj heq
    subst hc
    subst hr
    rw [if_neg (by omega)]

theorem parseStrRest_backslash {e c : Char} (r : Chars) (hu : e ≠ 'u')
    (he : escCharLoad e = some c) :
    parseStrRest ('\\' :: e :: r) = (parseStrRest r).map (fun p => (c :: p.1, p.2)) := by
  rw [parseStrRest.eq_def]
  split
  · rename_i heq
    exact absurd heq (by simp)
  · rename_i heq
    exact absurd (List.cons.inj heq).1 (by decide)
  · rename_i heq
    simp only [List.cons.injEq] at heq
    exact absurd heq.2.1 hu
  · rename_i heq
    simp only [List.cons.injEq] at heq
    obtain ⟨-, h1, h2⟩ := heq
    subst h1
    subst h2
    rw [he]
  · rename_i c2 r2 hA hB hC heq
    simp only [List.cons.injEq] at heq
    exact (hC e r heq.1.symm heq.2.symm).elim

theorem parseStrRest_u {a b c d : Char} {n : Nat} (r : Chars)
    (hh : hex4 a b c d = some n) (hlow : n < 55296) :
    parseStrRest ('\\' :: 'u' :: a :: b :: c :: d :: r) =
      (parseStrRest r).map (fun p => (Char.ofNat n :: p.1, p.2)) := by
  rw [parseStrRest.eq_def]
  split
  · rename_i heq
    exact absurd heq (by simp)
  · rename_i heq
    exact absurd (List.cons.inj heq).1 (by decide)
  · rename_i heq
    simp only [List.cons.injEq] at heq
    obtain ⟨-, -, h1, h2, h3, h4, h5⟩ := heq
    subst h1
    subst h2
    subst h3
    subst h4
    subst h5
    rw [hh]
    dsimp only
    rw [if_neg (by omega), if_neg (by omega)]
  · rename_i hno heq
    simp only [List.cons.injEq] at heq
    exact (hno a b c d r heq.2.1.symm heq.2.2.symm).elim
  · rename_i c2 r2 hA hB hC heq
    simp only [List.cons.injEq] at heq
    exact (hB a b c d r heq.1.symm heq.2.symm).elim

theorem hex4_ctrl (k : Nat) (hk : k < 32) :
    hex4 '0' '0' (hexDigitChar (k / 16)) (hexDigitChar (k % 16)) = some k := by
  interval_cases k <;> rfl

theorem parseStrRest_escape (s rest : Chars) :
    parseStrRest (escapeStr s ++ '"' :: rest) = some (s, rest) := by
  induction s with
  | nil => rfl
  | cons c cs ih =>
    have hsplit : escapeStr (c :: cs) ++ '"' :: rest =
        escCharDump c ++ (escapeStr cs ++ '"' :: rest) := by
      simp [escapeStr, List.append_assoc]
    rw [hsplit]
    by_cases h1 : c = '"'
    · subst h1
      rw [show escCharDump '"' ++ (escapeStr cs ++ '"' :: rest) =
        '\\' :: '"' :: (escapeStr cs ++ '"' :: rest) from rfl]
      rw [parseStrRest_backslash _ (by decide) (show escCharLoad '"' = some '"' from rfl),
        ih]
      rfl
    by_cases h2 : c = '\\'
    · subst h2
      rw [show escCharDump '\\' ++ (escapeStr cs ++ '"' :: rest) =
        '\\' :: '\\' :: (escapeStr cs ++ '"' :: rest) from rfl]
      rw [parseStrRest_backslash _ (by decide) (show escCharLoad '\\' = some '\\' from rfl),
        ih]
      rfl
    by_cases h3 : c = '\n'
    · subst h3
      rw [show escCharDump '\n' ++ (escapeStr cs ++ '"' :: rest) =
        '\\' :: 'n' :: (escapeStr cs ++ '"' :: rest) from rfl]
      rw [parseStrRest_backslash _ (by decide) (show escCharLoad 'n' = some '\n' from rfl),
        ih]
      rfl
    by_cases h4 : c = '\r'
    · subst h4
      rw [show escCharDump '\r' ++ (escapeStr cs ++ '"' :: rest) =
        '\\' :: 'r' :: (escapeStr cs ++ '"' :: rest) from rfl]
      rw [parseStrRest_backslash _ (by decide) (show escCharLoad 'r' = some '\r' from rfl),
        ih]
      rfl
    by_cases h5 : c = '\t'
    · subst h5
      rw [show escCharDump '\t' ++ (escapeStr cs ++ '"' :: rest) =
        '\\' :: 't' :: (escapeStr cs ++ '"' :: rest) from rfl]
      rw [parseStrRest_backslash _ (by decide) (show escCharLoad 't' = some '\t' from rfl),
        ih]
      rfl
    by_cases h6 : c.toNat = 8
    · rw [show escCharDump c = ['\\', 'b'] by
        rw [escCharDump, if_neg h1, if_neg h2, if_neg h3, if_neg h4, if_neg h5, if_pos h6]]
      rw [show (['\\', 'b'] : Chars) ++ (escapeStr cs ++ '"' :: rest) =
        '\\' :: 'b' :: (escapeStr cs ++ '"' :: rest) from rfl]
      rw [parseStrRest_backslash _ (by decide)
        (show escCharLoad 'b' = some (Char.ofNat 8) from rfl), ih]
      rw [show Char.ofNat 8 = c by rw [← h6, Char.ofNat_toNat]]
      rfl
    by_cases h7 : c.toNat = 12
    · rw [show escCharDump c = ['\\', 'f'] by
        rw [escCharDump, if_neg h1, if_neg h2, if_neg h3, if_neg h4, if_neg h5, if_neg h6,
          if_pos h7]]
      rw [show (['\\', 'f'] : Chars) ++ (escapeStr cs ++ '"' :: rest) =
        '\\' :: 'f' :: (escapeStr cs ++ '"' :: rest) from rfl]
      rw [parseStrRest_backslash _ (by decide)
        (show escCharLoad 'f' = some (Char.ofNat 12) from rfl), ih]
      rw [show Char.ofNat 12 = c by rw [← h7, Char.ofNat_toNat]]
      rfl
    by_cases h8 : c.toNat < 32
    · rw [show escCharDump c =
        ['\\', 'u', '0', '0', hexDigitChar (c.toNat / 16), hexDigitChar (c.toNat % 16)] by
        rw [escCharDump, if_neg h1, if_neg h2, if_neg h3, if_neg h4, if_neg h5, if_neg h6,
          if_neg h7, if_pos h8]]
      rw [show (['\\', 'u', '0', '0', hexDigitChar (c.toNat / 16),
          hexDigitChar (c.toNat % 16)] : Chars) ++ (escapeStr cs ++ '"' :: rest) =
        '\\' :: 'u' :: '0' :: '0' :: hexDigitChar (c.toNat / 16) ::
          hexDigitChar (c.toNat % 16) :: (escapeStr cs ++ '"' :: rest) from rfl]
      rw [parseStrRest_u _ (hex4_ctrl c.toNat h8) (by omega), ih]
      rw [Char.ofNat_toNat]
      rfl
    · rw [show escCharDump c = [c] by
        rw [escCharDump, if_neg h1, if_neg h2, if_neg h3, if_neg h4, if_neg h5, if_neg h6,
          if_neg h7, if_neg h8]]
      rw [show ([c] : Chars) ++ (escapeStr cs ++ '"' :: rest) =
        c :: (escapeStr cs ++ '"' :: rest) from rfl]
      rw [parseStrRest_raw _ (by omega) h1 h2, ih]
      rfl

def valNoRB : JVal → Prop
  | jstr s => ∀ c ∈ s, c ≠ ']'
  | jnull => True
  | jint _ => True
  | jfloat _ _ => True
  | jbool _ => True
  | jarr _ => False
  | jobj _ => False

def scalarOK : JVal → Prop
  | jnull => True
  | jint _ => True
  | jstr _ => True
  | jfloat _ e => 1 ≤ e
  | _ => False

def noRBStr : Option Chars → Bool
  | none => true
  | some s => s.all (fun c => !(c == ']'))

def listingNoRB (l : Listing) : Bool :=
  noRBStr l.mls && noRBStr l.url && noRBStr l.address && noRBStr l.type && noRBStr l.note

def bathsCanonical (l : Listing) : Prop :=
  ∀ p, l.baths = some p → canonFloat p = p

theorem digit_ne_rb {c : Char} (h : c.isDigit = true) : c ≠ ']' := by
  intro hc
  subst hc
  exact absurd h (by decide)

theorem hexDigitChar_ne_rb (n : Nat) : hexDigitChar n ≠ ']' := by
  unfold hexDigitChar
  split <;> decide

theorem escCharDump_no_rb {c : Char} (h : c ≠ ']') : ∀ x ∈ escCharDump c, x ≠ ']' := by
  intro x hx
  unfold escCharDump at hx
  split at hx
  · simp only [List.mem_cons, List.not_mem_nil, or_false] at hx
    rcases hx with hx | hx <;> subst hx <;> decide
  split at hx
  · simp only [List.mem_cons, List.not_mem_nil, or_false] at hx
    rcases hx with hx | hx <;> subst hx <;> decide
  split at hx
  · simp only [List.mem_cons, List.not_mem_nil, or_false] at hx
    rcases hx with hx | hx <;> subst hx <;> decide
  split at hx
  · simp only [List.mem_cons, List.not_mem_nil, or_false] at hx
    rcases hx with hx | hx <;> subst hx <;> decide
  split at hx
  · simp only [List.mem_cons, List.not_mem_nil, or_false] at hx
    rcases hx with hx | hx <;> subst hx <;> decide
  split at hx
  · simp only [List.mem_cons, List.not_mem_nil, or_false] at hx
    rcases hx with hx | hx <;> subst hx <;> decide
  split at hx
  · simp only [List.mem_cons, List.not_mem_nil, or_false] at hx
    rcases hx with hx | hx <;> subst hx <;> decide
  split at hx
  · simp only [List.mem_cons, List.not_mem_nil, or_false] at hx
    rcases hx with hx | hx | hx | hx | hx | hx
    · subst hx; decide
    · subst hx; decide
    · subst hx; decide
    · subst hx; decide
    · subst hx; exact hexDigitChar_ne_rb _
    · subst hx; exact hexDigitChar_ne_rb _
  · simp only [List.mem_cons, List.not_mem_nil, or_false] at hx
    subst hx
    exact h

theorem escapeStr_no_rb {s : Chars} (h : ∀ c ∈ s, c ≠ ']') :
    ∀ x ∈ escapeStr s, x ≠ ']' := by
  intro x hx
  unfold escapeStr at hx
  rw [List.mem_flatten] at hx
  obtain ⟨l, hl, hxl⟩ := hx
  rw [List.mem_map] at hl
  obtain ⟨c, hc, hcl⟩ := hl
  subst hcl
  exact escCharDump_no_rb (h c hc) x hxl

theorem natToChars_no_rb (n : Nat) : ∀ c ∈ natToChars n, c ≠ ']' :=
  fun c hc => digit_ne_rb (natToChars_all_digits n c hc)

theorem intChars_no_rb (n : Int) : ∀ c ∈ intChars n, c ≠ ']' := by
  intro c hc
  unfold intChars at hc
  rw [List.mem_append] at hc
  rcases hc with hc | hc
  · split at hc
    · simp only [List.mem_cons, List.not_mem_nil, or_false] at hc
      subst hc; decide
    · exact absurd hc (List.not_mem_nil c)
  · exact natToChars_no_rb _ c hc

theorem floatChars_no_rb (m : Int) (e : Nat) : ∀ c ∈ floatChars m e, c ≠ ']' := by
  intro c hc
  unfold floatChars at hc
  simp only [List.append_assoc, List.mem_append] at hc
  rcases hc with hc | hc | hc | hc | hc
  · split at hc
    · simp only [List.mem_cons, List.not_mem_nil, or_false] at hc
      subst hc; decide
    · exact absurd hc (List.not_mem_nil c)
  · exact natToChars_no_rb _ c hc
  · simp only [List.mem_cons, List.not_mem_nil, or_false] at hc
    subst hc; decide
  · rw [List.eq_of_mem_replicate hc]; decide
  · exact natToChars_no_rb _ c hc

theorem jdumpF_scalar_no_rb (f : Nat) (v : JVal) (h : valNoRB v) :
    ∀ c ∈ jdumpF f v, c ≠ ']' := by
  intro c hc
  cases f with
  | zero => exact absurd hc (by simp [jdumpF] at hc ⊢)
  | succ f =>
    cases v with
    | jnull =>
      simp only [jdumpF, ks] at hc
      rw [show "null".toList = ['n', 'u', 'l', 'l'] from rfl] at hc
      simp only [List.mem_cons, List.not_mem_nil, or_false] at hc
      rcases hc with hc | hc | hc | hc <;> subst hc <;> decide
    | jbool b =>
      cases b <;> simp only [jdumpF, ks] at hc
      · rw [show "false".toList = ['f', 'a', 'l', 's', 'e'] from rfl] at hc
        simp only [List.mem_cons, List.not_mem_nil, or_false] at hc
        rcases hc with hc | hc | hc | hc | hc <;> subst hc <;> decide
      · rw [show "true".toList = ['t', 'r', 'u', 'e'] from rfl] at hc
        simp only [List.mem_cons, List.not_mem_nil, or_false] at hc
        rcases hc with hc | hc | hc | hc <;> subst hc <;> decide
    | jint n => exact intChars_no_rb n c (by simpa [jdumpF] using hc)
    | jfloat m e => exact floatChars_no_rb m e c (by simpa [jdumpF] using hc)
    | jstr s =>
      simp only [jdumpF, List.mem_cons, List.mem_append, List.not_mem_nil, or_false] at hc
      rcases hc with hc | hc
      · rcases hc with hc | hc
        · subst hc; decide
        · exact escapeStr_no_rb h c hc
      · subst hc; decide
    | jarr l => exact absurd h (by simp [valNoRB])
    | jobj l => exact absurd h (by simp [valNoRB])

theorem jdumpMembers_no_rb (f : Nat) (ms : List (Chars × JVal))
    (h : ∀ p ∈ ms, (∀ c ∈ p.1, c ≠ ']') ∧ valNoRB p.2) :
    ∀ c ∈ jdumpMembers f ms, c ≠ ']' := by
  induction f generalizing ms with
  | zero => intro c hc; exact absurd hc (by simp [jdumpMembers] at hc ⊢)
  | succ f ih =>
    match ms with
    | [] => intro c hc; simp [jdumpMembers] at hc
    | [(k, v)] =>
      obtain ⟨hk, hv⟩ := h (k, v) (by simp)
      simp only [jdumpMembers, List.cons_append, List.append_assoc]
      simp only [List.forall_mem_cons, List.forall_mem_append]
      exact ⟨by decide, escapeStr_no_rb hk, by decide, by decide,
        jdumpF_scalar_no_rb f v hv⟩
    | (k, v) :: p :: rest =>
      obtain ⟨hk, hv⟩ := h (k, v) (by simp)
      simp only [jdumpMembers, List.cons_append, List.append_assoc]
      simp only [List.forall_mem_cons, List.forall_mem_append]
      exact ⟨by decide, escapeStr_no_rb hk, by decide, by decide,
        jdumpF_scalar_no_rb f v hv, by decide,
        ih (p :: rest) (fun q hq => h q (List.mem_cons_of_mem _ hq))⟩

theorem jdumpElems_no_rb (f : Nat) (vs : List JVal)
    (h : ∀ v ∈ vs, ∀ g, ∀ c ∈ jdumpF g v, c ≠ ']') :
    ∀ c ∈ jdumpElems f vs, c ≠ ']' := by
  induction f generalizing vs with
  | zero => intro c hc; exact absurd hc (by simp [jdumpElems] at hc ⊢)
  | succ f ih =>
    match vs with
    | [] => intro c hc; simp [jdumpElems] at hc
    | [v] => exact fun c hc => h v (by simp) f c (by simpa [jdumpElems] using hc)
    | v :: w :: rest =>
      simp only [jdumpElems]
      simp only [List.forall_mem_cons, List.forall_mem_append]
      exact ⟨h v (by simp) f, by decide,
        ih (w :: rest) (fun q hq => h q (List.mem_cons_of_mem _ hq))⟩

theorem noRBStr_val {x : Option Chars} (h : noRBStr x = true) : valNoRB (optStrJ x) := by
  cases x with
  | none => trivial
  | some s =>
    show ∀ c ∈ s, c ≠ ']'
    intro c hc
    simp only [noRBStr, List.all_eq_true, Bool.not_eq_eq_eq_not, Bool.not_true,
      beq_eq_false_iff_ne, ne_eq] at h
    exact h c hc

theorem optIntJ_valNoRB (x : Option Int) : valNoRB (optIntJ x) := by
  cases x <;> trivial

theorem optFloatJ_valNoRB (x : Option (Int × Nat)) : valNoRB (optFloatJ x) := by
  cases x <;> trivial

theorem listingToJson_no_rb (l : Listing) (h : listingNoRB l = true) (g : Nat) :
    ∀ c ∈ jdumpF g (listingToJson l), c ≠ ']' := by
  simp only [listingNoRB, Bool.and_eq_true] at h
  obtain ⟨⟨⟨⟨h1, h2⟩, h3⟩, h4⟩, h5⟩ := h
  have hpairs : ∀ p ∈ [(ks "mls", optStrJ l.mls), (ks "url", optStrJ l.url),
      (ks "address", optStrJ l.address), (ks "price_cad", optIntJ l.price_cad),
      (ks "beds", optIntJ l.beds), (ks "baths", optFloatJ l.baths),
      (ks "type", optStrJ l.type), (ks "note", optStrJ l.note)],
      (∀ c ∈ p.1, c ≠ ']') ∧ valNoRB p.2 := by
    intro p hp
    simp only [List.mem_cons, List.not_mem_nil, or_false] at hp
    rcases hp with hp | hp | hp | hp | hp | hp | hp | hp <;> subst hp
    · exact ⟨show ∀ c ∈ ks "mls", c ≠ ']' by decide, noRBStr_val h1⟩
    · exact ⟨show ∀ c ∈ ks "url", c ≠ ']' by decide, noRBStr_val h2⟩
    · exact ⟨show ∀ c ∈ ks "address", c ≠ ']' by decide, noRBStr_val h3⟩
    · exact ⟨show ∀ c ∈ ks "price_cad", c ≠ ']' by decide, optIntJ_valNoRB _⟩
    · exact ⟨show ∀ c ∈ ks "beds", c ≠ ']' by decide, optIntJ_valNoRB _⟩
    · exact ⟨show ∀ c ∈ ks "baths", c ≠ ']' by decide, optFloatJ_valNoRB _⟩
    · exact ⟨show ∀ c ∈ ks "type", c ≠ ']' by decide, noRBStr_val h4⟩
    · exact ⟨show ∀ c ∈ ks "note", c ≠ ']' by decide, noRBStr_val h5⟩
  intro c hc
  cases g with
  | zero => exact absurd hc (by simp [jdumpF] at hc ⊢)
  | succ g =>
    simp only [listingToJson, jdumpF] at hc
    simp only [List.mem_cons, List.mem_append, List.not_mem_nil, or_false] at hc
    rcases hc with hc | hc
    · rcases hc with hc | hc
      · subst hc; decide
      · exact jdumpMembers_no_rb g _ hpairs c hc
    · subst hc; decide

theorem dropPfx_self_append (p s : Chars) : dropPfx p (p ++ s) = some s := by
  induction p with
  | nil => rfl
  | cons c cs ih => simpa [dropPfx] using ih

theorem takeThroughRB_no_rb (body rest : Chars) (h : ∀ c ∈ body, c ≠ ']') :
    takeThroughRB (body ++ ']' :: rest) = some (body ++ [']']) := by
  induction body with
  | nil => rfl
  | cons c cs ih =>
    have hc : c ≠ ']' := h c (by simp)
    rw [List.cons_append, takeThroughRB.eq_def]
    split
    · rename_i heq
      exact absurd heq (by simp)
    · rename_i heq
      exact absurd (List.cons.inj heq).1 hc
    · rename_i c2 r2 hA heq
      obtain ⟨h1, h2⟩ := List.cons.inj heq
      subst h1
      rw [← h2, ih (fun x hx => h x (List.mem_cons_of_mem _ hx))]
      rfl

theorem findPropsArray_cons_match {c : Char} {tl g : Chars}
    (h : matchPropsAt (c :: tl) = some g) : findPropsArray (c :: tl) = some g := by
  rw [findPropsArray.eq_def]
  simp only [h]

theorem findPropsArray_serializeProps (L : List Listing)
    (h : ∀ l ∈ L, listingNoRB l = true) :
    findPropsArray (serializeProps L) =
      some (jdumpF (L.length + 12) (jarr (L.map listingToJson))) := by
  have hbody : ∀ c ∈ jdumpElems (L.length + 11) (L.map listingToJson), c ≠ ']' := by
    refine jdumpElems_no_rb _ _ ?_
    intro v hv g
    rw [List.mem_map] at hv
    obtain ⟨l, hl, hlv⟩ := hv
    subst hlv
    exact listingToJson_no_rb l (h l hl) g
  have hdump : jdumpF (L.length + 12) (jarr (L.map listingToJson)) =
      '[' :: jdumpElems (L.length + 11) (L.map listingToJson) ++ [']'] := rfl
  have hmatch : matchPropsAt (serializeProps L) =
      some (jdumpF (L.length + 12) (jarr (L.map listingToJson))) := by
    have h1 : dropPfx litProperties (serializeProps L) =
        some (':' :: ' ' :: jdumpF (L.length + 12) (jarr (L.map listingToJson))) := by
      unfold serializeProps
      rw [List.append_assoc, dropPfx_self_append]
      rfl
    have h2 : (':' :: ' ' :: jdumpF (L.length + 12)
        (jarr (L.map listingToJson))).dropWhile isPyWS =
        ':' :: ' ' :: jdumpF (L.length + 12) (jarr (L.map listingToJson)) :=
      List.dropWhile_cons_of_neg (by decide)
    have h3 : (' ' :: jdumpF (L.length + 12) (jarr (L.map listingToJson))).dropWhile
        isPyWS = (jdumpF (L.length + 12) (jarr (L.map listingToJson))).dropWhile
        isPyWS := List.dropWhile_cons_of_pos (by decide)
    have h4 : (jdumpF (L.length + 12) (jarr (L.map listingToJson))).dropWhile isPyWS =
        '[' :: (jdumpElems (L.length + 11) (L.map listingToJson) ++ [']']) := by
      rw [hdump]
      rw [show ('[' :: jdumpElems (L.length + 11) (L.map listingToJson) ++ [']']) =
        '[' :: (jdumpElems (L.length + 11) (L.map listingToJson) ++ [']']) from rfl]
      exact List.dropWhile_cons_of_neg (by decide)
    have h5 : takeThroughRB (jdumpElems (L.length + 11) (L.map listingToJson) ++
        [']']) = some (jdumpElems (L.length + 11) (L.map listingToJson) ++ [']']) := by
      rw [show (jdumpElems (L.length + 11) (L.map listingToJson) ++ [']']) =
        (jdumpElems (L.length + 11) (L.map listingToJson) ++ ']' :: []) from rfl]
      exact takeThroughRB_no_rb _ _ hbody
    unfold matchPropsAt
    simp only [h1, h2, h3, h4, h5, Option.map_some]
    rw [hdump]
    rfl
  have hne : ∃ c tl, serializeProps L = c :: tl := by
    unfold serializeProps litProperties
    exact ⟨'"', _, rfl⟩
  obtain ⟨c, tl, hctl⟩ := hne
  rw [hctl]
  rw [hctl] at hmatch
  exact findPropsArray_cons_match hmatch

set_option maxHeartbeats 1000000 in
theorem pVal_default (f : Nat) {c : Char} (r : Chars)
    (h1 : c ≠ '{') (h2 : c ≠ '[') (h3 : c ≠ 'n') (h4 : c ≠ 't') (h5 : c ≠ 'f')
    (h6 : c ≠ '"') :
    pVal (f + 1) (c :: r) = parseNum (c :: r) := by
  rw [pVal.eq_def]
  split
  · rename_i heq
    exact absurd heq (by omega)
  · rename_i heq hs
    split
    · rename_i heq2
      exact absurd (List.cons.inj heq2).1 h1
    · rename_i heq2
      exact absurd (List.cons.inj heq2).1 h2
    · rename_i heq2
      exact absurd (List.cons.inj heq2).1 h3
    · rename_i heq2
      exact absurd (List.cons.inj heq2).1 h4
    · rename_i heq2
      exact absurd (List.cons.inj heq2).1 h5
    · rename_i heq2
      exact absurd (List.cons.inj heq2).1 h6
    · rfl

theorem pVal_null (f : Nat) (r : Chars) :
    pVal (f + 1) ('n' :: 'u' :: 'l' :: 'l' :: r) = some (jnull, r) := rfl

theorem pVal_str (f : Nat) (r : Chars) :
    pVal (f + 1) ('"' :: r) = (parseStrRest r).map (fun p => (jstr p.1, p.2)) := rfl

theorem digit_ne {c : Char} (x : Char) (h : c.isDigit = true) (hx : x.isDigit = false) :
    c ≠ x := by
  intro he
  subst he
  rw [h] at hx
  exact absurd hx (by simp)

theorem pVal_scalar (f g : Nat) (hf : 1 ≤ f) (hg : 1 ≤ g) (v : JVal) (hv : scalarOK v)
    (rest : Chars) (hrest : stopsNum rest) :
    pVal f (jdumpF g v ++ rest) = some (v, rest) := by
  obtain ⟨f', rfl⟩ : ∃ f', f = f' + 1 := ⟨f - 1, by omega⟩
  obtain ⟨g', rfl⟩ : ∃ g', g = g' + 1 := ⟨g - 1, by omega⟩
  cases v with
  | jnull => exact pVal_null f' rest
  | jbool b => exact absurd hv (by cases b <;> simp [scalarOK])
  | jarr l => exact absurd hv (by simp [scalarOK])
  | jobj o => exact absurd hv (by simp [scalarOK])
  | jstr s =>
    rw [show jdumpF (g' + 1) (jstr s) ++ rest = '"' :: (escapeStr s ++ '"' :: rest) by
      simp [jdumpF, List.append_assoc]]
    rw [pVal_str, parseStrRest_escape]
    rfl
  | jint n =>
    rw [show jdumpF (g' + 1) (jint n) = intChars n from rfl]
    rcases lt_or_ge n 0 with hneg | hpos
    · rw [show intChars n ++ rest = '-' :: (natToChars n.natAbs ++ rest) by
        simp [intChars, hneg]]
      rw [pVal_default f' _ (by decide) (by decide) (by decide) (by decide) (by decide)
        (by decide)]
      rw [show ('-' :: (natToChars n.natAbs ++ rest)) = intChars n ++ rest by
        simp [intChars, hneg]]
      exact parseNum_intChars n hrest
    · obtain ⟨c, cs, hcc, hcd⟩ := natToChars_cons n.natAbs
      rw [show intChars n ++ rest = c :: (cs ++ rest) by
        simp [intChars, not_lt.mpr hpos, hcc]]
      rw [pVal_default f' _ (digit_ne _ hcd (by decide)) (digit_ne _ hcd (by decide))
        (digit_ne _ hcd (by decide)) (digit_ne _ hcd (by decide))
        (digit_ne _ hcd (by decide)) (digit_ne _ hcd (by decide))]
      rw [show c :: (cs ++ rest) = intChars n ++ rest by
        simp [intChars, not_lt.mpr hpos, hcc]]
      exact parseNum_intChars n hrest
  | jfloat m e =>
    have he : 1 ≤ e := hv
    have hfc : jdumpF (g' + 1) (jfloat m e) ++ rest =
        (if m < 0 then ['-'] else []) ++ natToChars (m.natAbs / 10 ^ e) ++
          '.' :: ((List.replicate (e - (natToChars (m.natAbs % 10 ^ e)).length) '0' ++
            natToChars (m.natAbs % 10 ^ e)) ++ rest) := by
      simp [jdumpF, floatChars, List.append_assoc]
    rw [hfc]
    by_cases hm : m < 0
    · rw [if_pos hm]
      rw [show (['-'] : Chars) ++ natToChars (m.natAbs / 10 ^ e) ++
          '.' :: ((List.replicate (e - (natToChars (m.natAbs % 10 ^ e)).length) '0' ++
            natToChars (m.natAbs % 10 ^ e)) ++ rest) =
        '-' :: (natToChars (m.natAbs / 10 ^ e) ++
          '.' :: ((List.replicate (e - (natToChars (m.natAbs % 10 ^ e)).length) '0' ++
            natToChars (m.natAbs % 10 ^ e)) ++ rest)) from rfl]
      rw [pVal_default f' _ (by decide) (by decide) (by decide) (by decide) (by decide)
        (by decide)]
      rw [show ('-' :: (natToChars (m.natAbs / 10 ^ e) ++
          '.' :: ((List.replicate (e - (natToChars (m.natAbs % 10 ^ e)).length) '0' ++
            natToChars (m.natAbs % 10 ^ e)) ++ rest))) =
        (if m < 0 then ['-'] else []) ++ natToChars (m.natAbs / 10 ^ e) ++
          '.' :: ((List.replicate (e - (natToChars (m.natAbs % 10 ^ e)).length) '0' ++
            natToChars (m.natAbs % 10 ^ e)) ++ rest) by rw [if_pos hm]; rfl]
      exact parseNum_floatChars m he hrest
    · rw [if_neg hm]
      obtain ⟨c, cs, hcc, hcd⟩ := natToChars_cons (m.natAbs / 10 ^ e)
      rw [show ([] : Chars) ++ natToChars (m.natAbs / 10 ^ e) ++
          '.' :: ((List.replicate (e - (natToChars (m.natAbs % 10 ^ e)).length) '0' ++
            natToChars (m.natAbs % 10 ^ e)) ++ rest) =
        c :: (cs ++
          '.' :: ((List.replicate (e - (natToChars (m.natAbs % 10 ^ e)).length) '0' ++
            natToChars (m.natAbs % 10 ^ e)) ++ rest)) by
        rw [List.nil_append, hcc]
        rfl]
      rw [pVal_default f' _ (digit_ne _ hcd (by decide)) (digit_ne _ hcd (by decide))
        (digit_ne _ hcd (by decide)) (digit_ne _ hcd (by decide))
        (digit_ne _ hcd (by decide)) (digit_ne _ hcd (by decide))]
      rw [show c :: (cs ++
          '.' :: ((List.replicate (e - (natToChars (m.natAbs % 10 ^ e)).length) '0' ++
            natToChars (m.natAbs % 10 ^ e)) ++ rest)) =
        (if m < 0 then ['-'] else []) ++ natToChars (m.natAbs / 10 ^ e) ++
          '.' :: ((List.replicate (e - (natToChars (m.natAbs % 10 ^ e)).length) '0' ++
            natToChars (m.natAbs % 10 ^ e)) ++ rest) by
        rw [if_neg hm, List.nil_append, hcc]
        rfl]
      exact parseNum_floatChars m he hrest

theorem digit_not_jws {c : Char} (h : c.isDigit = true) : isJWS c = false := by
  simp only [isJWS, Bool.or_eq_false_iff, decide_eq_false_iff_not]
  exact ⟨⟨⟨digit_ne _ h (by decide), digit_ne _ h (by decide)⟩,
    digit_ne _ h (by decide)⟩, digit_ne _ h (by decide)⟩

theorem jdumpF_scalar_head (g : Nat) (hg : 1 ≤ g) (v : JVal) (hv : scalarOK v) :
    ∃ c r, jdumpF g v = c :: r ∧ isJWS c = false := by
  obtain ⟨g', rfl⟩ : ∃ g', g = g' + 1 := ⟨g - 1, by omega⟩
  cases v with
  | jnull => exact ⟨'n', _, rfl, by decide⟩
  | jbool b => exact absurd hv (by cases b <;> simp [scalarOK])
  | jarr l => exact absurd hv (by simp [scalarOK])
  | jobj o => exact absurd hv (by simp [scalarOK])
  | jstr s => exact ⟨'"', _, rfl, by decide⟩
  | jint n =>
    rcases lt_or_ge n 0 with hneg | hpos
    · exact ⟨'-', natToChars n.natAbs, by simp [jdumpF, intChars, hneg], by decide⟩
    · obtain ⟨c, cs, hcc, hcd⟩ := natToChars_cons n.natAbs
      exact ⟨c, cs, by simp [jdumpF, intChars, not_lt.mpr hpos, hcc], digit_not_jws hcd⟩
  | jfloat m e =>
    by_cases hm : m < 0
    · refine ⟨'-', natToChars (m.natAbs / 10 ^ e) ++ '.' ::
        (List.replicate (e - (natToChars (m.natAbs % 10 ^ e)).length) '0' ++
          natToChars (m.natAbs % 10 ^ e)), ?_, by decide⟩
      simp [jdumpF, floatChars, hm, List.append_assoc]
    · obtain ⟨c, cs, hcc, hcd⟩ := natToChars_cons (m.natAbs / 10 ^ e)
      refine ⟨c, cs ++ '.' ::
        (List.replicate (e - (natToChars (m.natAbs % 10 ^ e)).length) '0' ++
          natToChars (m.natAbs % 10 ^ e)), ?_, digit_not_jws hcd⟩
      simp [jdumpF, floatChars, hm, hcc, List.append_assoc]

theorem skipWs_cons_neg {c : Char} (r : Chars) (h : isJWS c = false) :
    skipWs (c :: r) = c :: r := by
  simp [skipWs, List.dropWhile_cons, h]

theorem insertUpd_notmem (acc : List (Chars × JVal)) (k : Chars) (v : JVal)
    (h : olookup acc k = none) : insertUpd acc k v = acc ++ [(k, v)] := by
  induction acc with
  | nil => rfl
  | cons p tl ih =>
    obtain ⟨k0, v0⟩ := p
    by_cases hk : k0 = k
    · subst hk
      simp [olookup] at h
    · simp only [olookup, if_neg hk] at h
      simp [insertUpd, if_neg hk, ih h]

theorem olookup_append_none (acc : List (Chars × JVal)) (k q : Chars) (v : JVal)
    (h1 : olookup acc q = none) (h2 : k ≠ q) :
    olookup (acc ++ [(k, v)]) q = none := by
  induction acc with
  | nil => simp [olookup, if_neg h2]
  | cons p tl ih =>
    obtain ⟨k0, v0⟩ := p
    by_cases hk : k0 = q
    · subst hk
      simp [olookup] at h1
    · simp only [olookup, if_neg hk] at h1
      simp [olookup, if_neg hk, ih h1]

theorem jdumpMembers_head (g : Nat) (hg : 1 ≤ g) (q : Chars × JVal)
    (qs : List (Chars × JVal)) : ∃ t, jdumpMembers g (q :: qs) = '"' :: t := by
  obtain ⟨g', rfl⟩ : ∃ g', g = g' + 1 := ⟨g - 1, by omega⟩
  obtain ⟨qk, qv⟩ := q
  cases qs with
  | nil =>
    exact ⟨escapeStr qk ++ '"' :: ':' :: jdumpF g' qv, by simp [jdumpMembers]⟩
  | cons q2 rest =>
    exact ⟨escapeStr qk ++ '"' :: ':' ::
      (jdumpF g' qv ++ ',' :: jdumpMembers g' (q2 :: rest)), by simp [jdumpMembers]⟩

theorem pMembers_dump (ms : List (Chars × JVal)) :
    ∀ (m : Chars × JVal) (acc : List (Chars × JVal)) (f g : Nat) (rest : Chars),
    ms.length + 2 ≤ f → ms.length + 2 ≤ g →
    (∀ p ∈ m :: ms, scalarOK p.2) →
    (∀ p ∈ m :: ms, olookup acc p.1 = none) →
    ((m :: ms).map Prod.fst).Nodup →
    pMembers f acc (jdumpMembers g (m :: ms) ++ '}' :: rest) =
      some (acc ++ m :: ms, rest) := by
  induction ms with
  | nil =>
    intro m acc f g rest hf hg hscal hdisj hnodup
    obtain ⟨k, v⟩ := m
    obtain ⟨f', rfl⟩ : ∃ f', f = f' + 1 := ⟨f - 1, by omega⟩
    obtain ⟨g', rfl⟩ : ∃ g', g = g' + 1 := ⟨g - 1, by omega⟩
    have hf1 : 1 ≤ f' := by simp at hf; omega
    have hg1 : 1 ≤ g' := by simp at hg; omega
    have hscv : scalarOK v := hscal (k, v) (by simp)
    have hin : jdumpMembers (g' + 1) [(k, v)] ++ '}' :: rest =
        '"' :: (escapeStr k ++ '"' :: ':' :: (jdumpF g' v ++ '}' :: rest)) := by
      simp [jdumpMembers, List.append_assoc]
    rw [hin]
    simp only [pMembers, parseStrRest_escape]
    have hsw1 : skipWs (':' :: (jdumpF g' v ++ '}' :: rest)) =
        ':' :: (jdumpF g' v ++ '}' :: rest) := skipWs_cons_neg _ (by decide)
    simp only [hsw1]
    obtain ⟨ch, cr, hch, hwsc⟩ := jdumpF_scalar_head g' hg1 v hscv
    have hsw2 : skipWs (jdumpF g' v ++ '}' :: rest) = jdumpF g' v ++ '}' :: rest := by
      rw [hch, List.cons_append, skipWs_cons_neg _ hwsc, ← List.cons_append, ← hch]
    have hpv : pVal f' (jdumpF g' v ++ '}' :: rest) = some (v, '}' :: rest) :=
      pVal_scalar f' g' hf1 hg1 v hscv _ ⟨by decide, by decide, by decide, by decide⟩
    simp only [hsw2, hpv]
    have hsw3 : skipWs ('}' :: rest) = '}' :: rest := skipWs_cons_neg _ (by decide)
    simp only [hsw3]
    rw [insertUpd_notmem acc k v (hdisj (k, v) (by simp))]
  | cons p ms' ih =>
    intro m acc f g rest hf hg hscal hdisj hnodup
    obtain ⟨k, v⟩ := m
    obtain ⟨f', rfl⟩ : ∃ f', f = f' + 1 := ⟨f - 1, by omega⟩
    obtain ⟨g', rfl⟩ : ∃ g', g = g' + 1 := ⟨g - 1, by omega⟩
    have hlen : (p :: ms').length = ms'.length + 1 := by simp
    have hf1 : 1 ≤ f' := by simp at hf; omega
    have hg1 : 1 ≤ g' := by simp at hg; omega
    have hscv : scalarOK v := hscal (k, v) (by simp)
    have hin : jdumpMembers (g' + 1) ((k, v) :: p :: ms') ++ '}' :: rest =
        '"' :: (escapeStr k ++ '"' :: ':' :: (jdumpF g' v ++
          ',' :: (jdumpMembers g' (p :: ms') ++ '}' :: rest))) := by
      simp [jdumpMembers, List.append_assoc]
    rw [hin]
    simp only [pMembers, parseStrRest_escape]
    have hsw1 : skipWs (':' :: (jdumpF g' v ++
        ',' :: (jdumpMembers g' (p :: ms') ++ '}' :: rest))) =
        ':' :: (jdumpF g' v ++ ',' :: (jdumpMembers g' (p :: ms') ++ '}' :: rest)) :=
      skipWs_cons_neg _ (by decide)
    simp only [hsw1]
    obtain ⟨ch, cr, hch, hwsc⟩ := jdumpF_scalar_head g' hg1 v hscv
    have hsw2 : skipWs (jdumpF g' v ++
        ',' :: (jdumpMembers g' (p :: ms') ++ '}' :: rest)) =
        jdumpF g' v ++ ',' :: (jdumpMembers g' (p :: ms') ++ '}' :: rest) := by
      rw [hch, List.cons_append, skipWs_cons_neg _ hwsc, ← List.cons_append, ← hch]
    have hpv : pVal f' (jdumpF g' v ++
        ',' :: (jdumpMembers g' (p :: ms') ++ '}' :: rest)) =
        some (v, ',' :: (jdumpMembers g' (p :: ms') ++ '}' :: rest)) :=
      pVal_scalar f' g' hf1 hg1 v hscv _ ⟨by decide, by decide, by decide, by decide⟩
    simp only [hsw2, hpv]
    have hsw3 : skipWs (',' :: (jdumpMembers g' (p :: ms') ++ '}' :: rest)) =
        ',' :: (jdumpMembers g' (p :: ms') ++ '}' :: rest) :=
      skipWs_cons_neg _ (by decide)
    simp only [hsw3]
    obtain ⟨t, ht⟩ := jdumpMembers_head g' (by simp at hg; omega) p ms'
    have hsw4 : skipWs (jdumpMembers g' (p :: ms') ++ '}' :: rest) =
        jdumpMembers g' (p :: ms') ++ '}' :: rest := by
      rw [ht, List.cons_append, skipWs_cons_neg _ (by decide), ← List.cons_append, ← ht]
    simp only [hsw4]
    rw [insertUpd_notmem acc k v (hdisj (k, v) (by simp))]
    have hknotin : k ∉ (p :: ms').map Prod.fst := by
      simp only [List.map_cons, List.nodup_cons] at hnodup
      exact hnodup.1
    rw [ih p (acc ++ [(k, v)]) f' g' rest (by simp at hf ⊢; omega)
      (by simp at hg ⊢; omega)
      (fun q hq => hscal q (List.mem_cons_of_mem _ hq))
      (fun q hq => olookup_append_none acc k q.1 v
        (hdisj q (List.mem_cons_of_mem _ hq))
        (fun hkq => hknotin (by rw [hkq]; exact List.mem_map_of_mem _ hq)))
      (by simp only [List.map_cons, List.nodup_cons] at hnodup ⊢; exact hnodup.2)]
    simp [List.append_assoc]

theorem canonFloatAux_snd_pos (e : Nat) (m : Int) : 1 ≤ (canonFloatAux e m).2 := by
  induction e using Nat.strong_induction_on generalizing m with
  | _ e ih =>
    rcases e with _ | _ | e
    · simp [canonFloatAux]
    · simp [canonFloatAux]
    · rw [canonFloatAux]
      split
      · exact ih (e + 1) (by omega) _
      · simp

theorem canonFloatAux_idem (e : Nat) (m : Int) :
    canonFloat (canonFloatAux e m) = canonFloatAux e m := by
  induction e using Nat.strong_induction_on generalizing m with
  | _ e ih =>
    rcases e with _ | _ | e
    · rfl
    · rfl
    · rw [canonFloatAux]
      split
      · exact ih (e + 1) (by omega) _
      · rename_i hm
        show canonFloatAux (e + 2) m = (m, e + 2)
        rw [canonFloatAux, if_neg hm]

theorem pVal_obj_members (f : Nat) {r : Chars} {c : Char} {t : Chars}
    (h : skipWs r = c :: t) (hc : c ≠ '\x7d') :
    pVal (f + 1) ('\x7b' :: r) = (pMembers f [] (c :: t)).map (fun p => (jobj p.1, p.2)) := by
  simp only [pVal, h]
  split
  · rename_i heq
    exact absurd (List.cons.inj heq).1 hc
  · rfl

theorem pVal_listingDump (f g : Nat) (hf : 10 ≤ f) (hg : 10 ≤ g) (l : Listing)
    (hbaths : bathsCanonical l) (rest : Chars) :
    pVal f (jdumpF g (listingToJson l) ++ rest) = some (listingToJson l, rest) := by
  obtain ⟨f', rfl⟩ : ∃ f', f = f' + 1 := ⟨f - 1, by omega⟩
  obtain ⟨g', rfl⟩ : ∃ g', g = g' + 1 := ⟨g - 1, by omega⟩
  have hin : jdumpF (g' + 1) (listingToJson l) ++ rest =
      '{' :: (jdumpMembers g' [(ks "mls", optStrJ l.mls), (ks "url", optStrJ l.url),
        (ks "address", optStrJ l.address), (ks "price_cad", optIntJ l.price_cad),
        (ks "beds", optIntJ l.beds), (ks "baths", optFloatJ l.baths),
        (ks "type", optStrJ l.type), (ks "note", optStrJ l.note)] ++ '}' :: rest) := by
    simp [listingToJson, jdumpF, List.append_assoc]
  rw [hin]
  obtain ⟨t, ht⟩ := jdumpMembers_head g' (by omega) _ _
  have hsw : skipWs (jdumpMembers g' [(ks "mls", optStrJ l.mls), (ks "url", optStrJ l.url),
      (ks "address", optStrJ l.address), (ks "price_cad", optIntJ l.price_cad),
      (ks "beds", optIntJ l.beds), (ks "baths", optFloatJ l.baths),
      (ks "type", optStrJ l.type), (ks "note", optStrJ l.note)] ++ '}' :: rest) =
      '"' :: (t ++ '}' :: rest) := by
    rw [ht, List.cons_append, skipWs_cons_neg _ (by decide)]
  rw [pVal_obj_members f' hsw (by decide)]
  rw [show ('"' :: (t ++ '}' :: rest) : Chars) =
    jdumpMembers g' [(ks "mls", optStrJ l.mls), (ks "url", optStrJ l.url),
      (ks "address", optStrJ l.address), (ks "price_cad", optIntJ l.price_cad),
      (ks "beds", optIntJ l.beds), (ks "baths", optFloatJ l.baths),
      (ks "type", optStrJ l.type), (ks "note", optStrJ l.note)] ++ '}' :: rest by
    rw [ht, List.cons_append]]
  have hscal : ∀ p ∈ [(ks "mls", optStrJ l.mls), (ks "url", optStrJ l.url),
      (ks "address", optStrJ l.address), (ks "price_cad", optIntJ l.price_cad),
      (ks "beds", optIntJ l.beds), (ks "baths", optFloatJ l.baths),
      (ks "type", optStrJ l.type), (ks "note", optStrJ l.note)], scalarOK p.2 := by
    intro p hp
    simp only [List.mem_cons, List.not_mem_nil, or_false] at hp
    rcases hp with hp | hp | hp | hp | hp | hp | hp | hp <;> subst hp
    · cases l.mls <;> trivial
    · cases l.url <;> trivial
    · cases l.address <;> trivial
    · cases l.price_cad <;> trivial
    · cases l.beds <;> trivial
    · cases hb : l.baths with
      | none => trivial
      | some p =>
        show 1 ≤ p.2
        have := hbaths p hb
        calc 1 ≤ (canonFloat p).2 := canonFloatAux_snd_pos _ _
        _ = p.2 := by rw [this]
    · cases l.type <;> trivial
    · cases l.note <;> trivial
  rw [pMembers_dump _ _ [] f' g' rest (by simp; omega) (by simp; omega) hscal
    (fun p hp => rfl)
    (by show ([ks "mls", ks "url", ks "address", ks "price_cad", ks "beds", ks "baths",
      ks "type", ks "note"] : List Chars).Nodup
        decide)]
  rfl

theorem jdumpElems_obj_head (g : Nat) (hg : 2 ≤ g) (ms : List (Chars × JVal))
    (vs : List JVal) : ∃ t, jdumpElems g (jobj ms :: vs) = '\x7b' :: t := by
  obtain ⟨g', rfl⟩ : ∃ g', g = g' + 2 := ⟨g - 2, by omega⟩
  cases vs with
  | nil =>
    exact ⟨jdumpMembers g' ms ++ ['\x7d'], by simp [jdumpElems, jdumpF]⟩
  | cons v2 vtl =>
    exact ⟨(jdumpMembers g' ms ++ ['\x7d']) ++
      ',' :: jdumpElems (g' + 1) (v2 :: vtl), by simp [jdumpElems, jdumpF]⟩

theorem pElems_listings (L : List Listing) :
    ∀ (l0 : Listing) (f g : Nat) (rest : Chars),
    L.length + 11 ≤ f → L.length + 11 ≤ g →
    bathsCanonical l0 → (∀ x ∈ L, bathsCanonical x) →
    pElems f (jdumpElems g (listingToJson l0 :: L.map listingToJson) ++ ']' :: rest) =
      some (listingToJson l0 :: L.map listingToJson, rest) := by
  induction L with
  | nil =>
    intro l0 f g rest hf hg hb0 hbL
    obtain ⟨f', rfl⟩ : ∃ f', f = f' + 1 := ⟨f - 1, by omega⟩
    obtain ⟨g', rfl⟩ : ∃ g', g = g' + 1 := ⟨g - 1, by omega⟩
    rw [show jdumpElems (g' + 1) (listingToJson l0 :: List.map listingToJson []) =
      jdumpF g' (listingToJson l0) by simp [jdumpElems]]
    have hpv : pVal f' (jdumpF g' (listingToJson l0) ++ ']' :: rest) =
        some (listingToJson l0, ']' :: rest) :=
      pVal_listingDump f' g' (by omega) (by omega) l0 hb0 _
    simp only [pElems, hpv]
    have hsw : skipWs (']' :: rest) = ']' :: rest := skipWs_cons_neg _ (by decide)
    simp only [hsw]
    simp
  | cons l1 Ltl ih =>
    intro l0 f g rest hf hg hb0 hbL
    obtain ⟨f', rfl⟩ : ∃ f', f = f' + 1 := ⟨f - 1, by omega⟩
    obtain ⟨g', rfl⟩ : ∃ g', g = g' + 1 := ⟨g - 1, by omega⟩
    have hin : jdumpElems (g' + 1)
        (listingToJson l0 :: List.map listingToJson (l1 :: Ltl)) ++ ']' :: rest =
        jdumpF g' (listingToJson l0) ++
          ',' :: (jdumpElems g' (listingToJson l1 :: Ltl.map listingToJson) ++
            ']' :: rest) := by
      simp [jdumpElems, List.append_assoc]
    rw [hin]
    have hpv : pVal f' (jdumpF g' (listingToJson l0) ++
        ',' :: (jdumpElems g' (listingToJson l1 :: Ltl.map listingToJson) ++
          ']' :: rest)) =
        some (listingToJson l0,
          ',' :: (jdumpElems g' (listingToJson l1 :: Ltl.map listingToJson) ++
            ']' :: rest)) :=
      pVal_listingDump f' g' (by simp at hf; omega) (by simp at hg; omega) l0 hb0 _
    simp only [pElems, hpv]
    have hsw1 : skipWs (',' :: (jdumpElems g'
        (listingToJson l1 :: Ltl.map listingToJson) ++ ']' :: rest)) =
        ',' :: (jdumpElems g' (listingToJson l1 :: Ltl.map listingToJson) ++
          ']' :: rest) := skipWs_cons_neg _ (by decide)
    simp only [hsw1]
    obtain ⟨t, ht⟩ := jdumpElems_obj_head g' (by simp at hg; omega)
      [(ks "mls", optStrJ l1.mls), (ks "url", optStrJ l1.url),
        (ks "address", optStrJ l1.address), (ks "price_cad", optIntJ l1.price_cad),
        (ks "beds", optIntJ l1.beds), (ks "baths", optFloatJ l1.baths),
        (ks "type", optStrJ l1.type), (ks "note", optStrJ l1.note)]
      (Ltl.map listingToJson)
    have ht' : jdumpElems g' (listingToJson l1 :: Ltl.map listingToJson) =
        '\x7b' :: t := ht
    have hsw2 : skipWs (jdumpElems g' (listingToJson l1 :: Ltl.map listingToJson) ++
        ']' :: rest) = jdumpElems g' (listingToJson l1 :: Ltl.map listingToJson) ++
        ']' :: rest := by
      rw [ht', List.cons_append, skipWs_cons_neg _ (by decide), ← List.cons_append, ← ht']
    simp only [hsw2]
    rw [ih l1 f' g' rest (by simp at hf ⊢; omega) (by simp at hg ⊢; omega)
      (hbL l1 (by simp)) (fun x hx => hbL x (List.mem_cons_of_mem _ hx))]
    simp

theorem pVal_arr_elems (f : Nat) {r : Chars} {c : Char} {t : Chars}
    (h : skipWs r = c :: t) (hc : c ≠ ']') :
    pVal (f + 1) ('[' :: r) = (pElems f (c :: t)).map (fun p => (jarr p.1, p.2)) := by
  simp only [pVal, h]
  split
  · rename_i heq
    exact absurd (List.cons.inj heq).1 hc
  · rfl

theorem jobj_dump_length (g : Nat) (hg : 1 ≤ g) (ms : List (Chars × JVal)) :
    1 ≤ (jdumpF g (jobj ms)).length := by
  obtain ⟨g', rfl⟩ : ∃ g', g = g' + 1 := ⟨g - 1, by omega⟩
  simp [jdumpF]

theorem jdumpElems_length_ge (vs : List JVal) :
    ∀ g, vs.length + 1 ≤ g →
    (∀ v ∈ vs, ∀ g', 1 ≤ g' → 1 ≤ (jdumpF g' v).length) →
    vs.length ≤ (jdumpElems g vs).length := by
  induction vs with
  | nil => intro g hg hv; simp
  | cons v tl ih =>
    intro g hg hv
    obtain ⟨g', rfl⟩ : ∃ g', g = g' + 1 := ⟨g - 1, by omega⟩
    cases tl with
    | nil =>
      rw [show jdumpElems (g' + 1) [v] = jdumpF g' v by simp [jdumpElems]]
      simpa using hv v (by simp) g' (by simp at hg; omega)
    | cons w wtl =>
      rw [show jdumpElems (g' + 1) (v :: w :: wtl) =
        jdumpF g' v ++ ',' :: jdumpElems g' (w :: wtl) by simp [jdumpElems]]
      have hrec := ih g' (by simp at hg ⊢; omega)
        (fun x hx => hv x (List.mem_cons_of_mem _ hx))
      simp only [List.length_append, List.length_cons] at hrec ⊢
      omega

theorem jloads_dump (L : List Listing) (h : ∀ l ∈ L, bathsCanonical l) :
    jloads (jdumpF (L.length + 12) (jarr (L.map listingToJson))) =
      some (jarr (L.map listingToJson)) := by
  have hdump : jdumpF (L.length + 12) (jarr (L.map listingToJson)) =
      '[' :: (jdumpElems (L.length + 11) (L.map listingToJson) ++ [']']) := rfl
  unfold jloads
  rw [hdump]
  rw [skipWs_cons_neg _ (by decide)]
  cases L with
  | nil => rfl
  | cons l0 Ltl =>
    have hlen : (l0 :: Ltl).length ≤
        (jdumpElems ((l0 :: Ltl).length + 11)
          ((l0 :: Ltl).map listingToJson)).length := by
      have hbase := jdumpElems_length_ge ((l0 :: Ltl).map listingToJson)
        ((l0 :: Ltl).length + 11)
        (by simp only [List.length_map, List.length_cons]; omega)
      simp only [List.length_map] at hbase
      refine hbase ?_
      intro v hv g' hg'
      rw [List.mem_map] at hv
      obtain ⟨l, hl, hlv⟩ := hv
      rw [← hlv, listingToJson]
      exact jobj_dump_length g' hg' _
    obtain ⟨flen, hflen⟩ : ∃ n, 12 * ('[' :: (jdumpElems ((l0 :: Ltl).length + 11)
        ((l0 :: Ltl).map listingToJson) ++ [']'])).length + 12 = n + 1 :=
      ⟨12 * ('[' :: (jdumpElems ((l0 :: Ltl).length + 11)
        ((l0 :: Ltl).map listingToJson) ++ [']'])).length + 11, by omega⟩
    rw [hflen]
    obtain ⟨t, ht⟩ := jdumpElems_obj_head ((l0 :: Ltl).length + 11) (by omega)
      [(ks "mls", optStrJ l0.mls), (ks "url", optStrJ l0.url),
        (ks "address", optStrJ l0.address), (ks "price_cad", optIntJ l0.price_cad),
        (ks "beds", optIntJ l0.beds), (ks "baths", optFloatJ l0.baths),
        (ks "type", optStrJ l0.type), (ks "note", optStrJ l0.note)]
      (Ltl.map listingToJson)
    have ht' : jdumpElems ((l0 :: Ltl).length + 11)
        ((l0 :: Ltl).map listingToJson) = '\x7b' :: t := ht
    have hsw : skipWs (jdumpElems ((l0 :: Ltl).length + 11)
        ((l0 :: Ltl).map listingToJson) ++ [']']) =
        '\x7b' :: (t ++ [']']) := by
      rw [show ((l0 :: Ltl).map listingToJson : List JVal) =
        listingToJson l0 :: Ltl.map listingToJson from rfl] at ht' ⊢
      rw [ht', List.cons_append, skipWs_cons_neg _ (by decide)]
    rw [pVal_arr_elems flen hsw (by decide)]
    rw [show ('\x7b' :: (t ++ [']']) : Chars) =
      jdumpElems ((l0 :: Ltl).length + 11) ((l0 :: Ltl).map listingToJson) ++
        ']' :: [] by rw [ht', List.cons_append]]
    rw [show ((l0 :: Ltl).map listingToJson : List JVal) =
      listingToJson l0 :: Ltl.map listingToJson from rfl]
    rw [show ((l0 :: Ltl).length + 11 : Nat) = Ltl.length + 12 by simp]
    rw [pElems_listings Ltl l0 flen (Ltl.length + 12) [] ?hfb (by omega)
      (h l0 (by simp)) (fun x hx => h x (List.mem_cons_of_mem _ hx))]
    · rfl
    case hfb =>
      have hl2 : (l0 :: Ltl).length ≤ t.length + 1 := by
        rw [ht'] at hlen
        simpa using hlen
      simp only [List.length_cons] at hl2
      have : flen = 12 * ('[' :: (('\x7b' :: t) ++ [']'])).length + 11 := by
        rw [← ht']
        omega
      rw [this]
      simp only [List.length_cons, List.length_append]
      omega

theorem extractProps_serialize (L : List Listing)
    (hno : ∀ l ∈ L, listingNoRB l = true) (hb : ∀ l ∈ L, bathsCanonical l) :
    extractProps (serializeProps L) = L.map listingToJson := by
  unfold extractProps
  simp only [findPropsArray_serializeProps L hno, jloads_dump L hb]

theorem vStrField_opt (x : Option Chars) : vStrField (some (optStrJ x)) = some x := by
  cases x <;> rfl

theorem vIntField_opt (x : Option Int) : vIntField (some (optIntJ x)) = some x := by
  cases x <;> rfl

theorem vFloatField_opt (x : Option (Int × Nat))
    (h : ∀ p, x = some p → canonFloat p = p) :
    vFloatField (some (optFloatJ x)) = some x := by
  cases x with
  | none => rfl
  | some p =>
    show some (some (canonFloat p)) = some (some p)
    rw [h p rfl]

theorem listingFull_toJson (l : Listing) (hb : bathsCanonical l) :
    listingFull (listingToJson l) = some l := by
  obtain ⟨f1, f2, f3, f4, f5, f6, f7, f8⟩ := l
  have hb' : ∀ p, f6 = some p → canonFloat p = p := hb
  show buildListing _ = _
  rw [buildListing]
  rw [show olookup [(ks "mls", optStrJ f1), (ks "url", optStrJ f2),
    (ks "address", optStrJ f3), (ks "price_cad", optIntJ f4),
    (ks "beds", optIntJ f5), (ks "baths", optFloatJ f6),
    (ks "type", optStrJ f7), (ks "note", optStrJ f8)] (ks "mls") =
      some (optStrJ f1) from rfl]
  rw [show olookup [(ks "mls", optStrJ f1), (ks "url", optStrJ f2),
    (ks "address", optStrJ f3), (ks "price_cad", optIntJ f4),
    (ks "beds", optIntJ f5), (ks "baths", optFloatJ f6),
    (ks "type", optStrJ f7), (ks "note", optStrJ f8)] (ks "url") =
      some (optStrJ f2) from rfl]
  rw [show olookup [(ks "mls", optStrJ f1), (ks "url", optStrJ f2),
    (ks "address", optStrJ f3), (ks "price_cad", optIntJ f4),
    (ks "beds", optIntJ f5), (ks "baths", optFloatJ f6),
    (ks "type", optStrJ f7), (ks "note", optStrJ f8)] (ks "address") =
      some (optStrJ f3) from rfl]
  rw [show olookup [(ks "mls", optStrJ f1), (ks "url", optStrJ f2),
    (ks "address", optStrJ f3), (ks "price_cad", optIntJ f4),
    (ks "beds", optIntJ f5), (ks "baths", optFloatJ f6),
    (ks "type", optStrJ f7), (ks "note", optStrJ f8)] (ks "price_cad") =
      some (optIntJ f4) from rfl]
  rw [show olookup [(ks "mls", optStrJ f1), (ks "url", optStrJ f2),
    (ks "address", optStrJ f3), (ks "price_cad", optIntJ f4),
    (ks "beds", optIntJ f5), (ks "baths", optFloatJ f6),
    (ks "type", optStrJ f7), (ks "note", optStrJ f8)] (ks "beds") =
      some (optIntJ f5) from rfl]
  rw [show olookup [(ks "mls", optStrJ f1), (ks "url", optStrJ f2),
    (ks "address", optStrJ f3), (ks "price_cad", optIntJ f4),
    (ks "beds", optIntJ f5), (ks "baths", optFloatJ f6),
    (ks "type", optStrJ f7), (ks "note", optStrJ f8)] (ks "baths") =
      some (optFloatJ f6) from rfl]
  rw [show olookup [(ks "mls", optStrJ f1), (ks "url", optStrJ f2),
    (ks "address", optStrJ f3), (ks "price_cad", optIntJ f4),
    (ks "beds", optIntJ f5), (ks "baths", optFloatJ f6),
    (ks "type", optStrJ f7), (ks "note", optStrJ f8)] (ks "type") =
      some (optStrJ f7) from rfl]
  rw [show olookup [(ks "mls", optStrJ f1), (ks "url", optStrJ f2),
    (ks "address", optStrJ f3), (ks "price_cad", optIntJ f4),
    (ks "beds", optIntJ f5), (ks "baths", optFloatJ f6),
    (ks "type", optStrJ f7), (ks "note", optStrJ f8)] (ks "note") =
      some (optStrJ f8) from rfl]
  simp only [vStrField_opt, vIntField_opt, vFloatField_opt f6 hb']

theorem mapElement_toJson (l : Listing) (hb : bathsCanonical l) :
    mapElement (listingToJson l) = Except.ok l := by
  unfold mapElement
  simp only [listingFull_toJson l hb]

theorem exMapM_mapElement (L : List Listing) (hb : ∀ l ∈ L, bathsCanonical l) :
    exMapM mapElement (L.map listingToJson) = Except.ok L := by
  induction L with
  | nil => rfl
  | cons l0 Ltl ih =>
    simp only [List.map_cons, exMapM, mapElement_toJson l0 (hb l0 (by simp)),
      ih (fun x hx => hb x (List.mem_cons_of_mem _ hx))]

theorem vFloatField_canonical {x : Option JVal} {b : Option (Int × Nat)}
    (h : vFloatField x = some b) : ∀ p, b = some p → canonFloat p = p := by
  intro p hp
  subst hp
  cases x with
  | none => simp [vFloatField] at h
  | some v =>
    cases v with
    | jnull => simp [vFloatField] at h
    | jint n =>
      simp only [vFloatField, Option.some.injEq] at h
      rw [← h]
      rfl
    | jfloat m e =>
      simp only [vFloatField, Option.some.injEq] at h
      rw [← h]
      exact canonFloatAux_idem e m
    | jbool b2 => simp [vFloatField] at h
    | jstr s => simp [vFloatField] at h
    | jarr a => simp [vFloatField] at h
    | jobj o => simp [vFloatField] at h

theorem buildListing_baths {o : List (Chars × JVal)} {l : Listing}
    (h : buildListing o = some l) : bathsCanonical l :=
  vFloatField_canonical (buildListing_fields h).2.2.2.2.2.1

theorem mapElement_baths {v : JVal} {l : Listing}
    (h : mapElement v = Except.ok l) : bathsCanonical l := by
  unfold mapElement at h
  cases hF : listingFull v with
  | some l2 =>
    rw [hF] at h
    cases h
    cases v with
    | jobj o => exact buildListing_baths hF
    | jnull => simp [listingFull] at hF
    | jbool b => simp [listingFull] at hF
    | jint n => simp [listingFull] at hF
    | jfloat m e => simp [listingFull] at hF
    | jstr s => simp [listingFull] at hF
    | jarr a => simp [listingFull] at hF
  | none =>
    rw [hF] at h
    cases v with
    | jobj o =>
      simp only [listingFallback] at h
      cases hB : buildListing (recognizedKeys.filterMap
          (fun k => (olookup o k).map (fun v => (k, v)))) with
      | some l2 =>
        rw [hB] at h
        cases h
        exact buildListing_baths hB
      | none => rw [hB] at h; cases h
    | jarr a =>
      simp only [listingFallback] at h
      split at h
      · cases h
      · cases h
        intro p hp
        cases hp
    | jstr s =>
      simp only [listingFallback] at h
      split at h
      · cases h
      · cases h
        intro p hp
        cases hp
    | jnull => simp [listingFallback] at h
    | jbool b => simp [listingFallback] at h
    | jint n => simp [listingFallback] at h
    | jfloat m e => simp [listingFallback] at h

theorem exMapM_ok_mem {α β : Type} {f : α → Except Chars β} :
    ∀ {xs : List α} {ys : List β}, exMapM f xs = Except.ok ys →
      ∀ y ∈ ys, ∃ x, f x = Except.ok y := by
  intro xs
  induction xs with
  | nil =>
    intro ys h y hy
    cases h
    cases hy
  | cons a as ih =>
    intro ys h y hy
    simp only [exMapM] at h
    cases hfa : f a with
    | error e => rw [hfa] at h; cases h
    | ok b =>
      rw [hfa] at h
      cases hrec : exMapM f as with
      | error e => rw [hrec] at h; cases h
      | ok bs =>
        rw [hrec] at h
        cases h
        rcases List.mem_cons.mp hy with hy | hy
        · exact ⟨a, by rw [hfa, hy]⟩
        · exact ih hrec y hy

/-- C7 (amended): the extraction is idempotent on listing sets whose string
fields contain no closing bracket: serializing such an extracted listing set
back to text as a properties-named JSON array and re-running the extraction
reproduces the same listing set. -/
theorem C7_extraction_idempotent (text : Chars) (limit : Nat) (L : List Listing)
    (h1 : extractListings text limit = Except.ok L)
    (h2 : ∀ l ∈ L, listingNoRB l = true) :
    extractListings (serializeProps L) limit = Except.ok L := by
  have hb : ∀ l ∈ L, bathsCanonical l := by
    intro l hl
    obtain ⟨v, hv⟩ := exMapM_ok_mem h1 l hl
    exact mapElement_baths hv
  have hlen : L.length ≤ limit := by
    have hl1 := exMapM_length h1
    have hl2 : ((extractProps text).take limit).length ≤ limit := by
      rw [List.length_take]
      omega
    omega
  unfold extractListings
  rw [extractProps_serialize L h2 hb]
  rw [List.take_of_length_le (by simp only [List.length_map]; omega)]
  exact exMapM_mapElement L hb

theorem C7_extraction_idempotent_witness :
    extractListings (serializeProps
        [⟨some (ks "A"), none, none, none, none, none, none, none⟩]) 5 =
      Except.ok [⟨some (ks "A"), none, none, none, none, none, none, none⟩] ∧
    (∀ l ∈ [(⟨some (ks "A"), none, none, none, none, none, none, none⟩ : Listing)],
      listingNoRB l = true) ∧
    extractListings (serializeProps
        [⟨some (ks "A"), none, none, none, none, none, none, none⟩]) 5 =
      Except.ok [⟨some (ks "A"), none, none, none, none, none, none, none⟩] :=
  ⟨by rfl, by decide,
    C7_extraction_idempotent (serializeProps
        [⟨some (ks "A"), none, none, none, none, none, none, none⟩]) 5
      [⟨some (ks "A"), none, none, none, none, none, none, none⟩]
      (by rfl) (by decide)⟩

theorem C7_extraction_counterexample :
    extractListings (ks "\"properties\": [\x7b\"note\": \"a\\u005db\"\x7d]") 20 =
      Except.ok [⟨none, none, none, none, none, none, none, some (ks "a]b")⟩] ∧
    extractListings (serializeProps
        [⟨none, none, none, none, none, none, none, some (ks "a]b")⟩]) 20 ≠
      Except.ok [⟨none, none, none, none, none, none, none, some (ks "a]b")⟩] := by
  constructor
  · rfl
  · intro h
    rw [show extractListings (serializeProps
        [⟨none, none, none, none, none, none, none, some (ks "a]b")⟩]) 20 =
      Except.ok [] from rfl] at h
    injection h with h2
    exact List.noConfusion h2
